import Mathlib

set_option maxRecDepth 400000

/-!
Verification model of `src/extractor/gta5_extractor.py` (GTRadio's GTA5 audio
extractor/organizer).  Paths are modelled as lists of path segments, the
filesystem as an explicit `World` value, and the two external subprocesses
(`rpf-cli`, `vgmstream-cli`) as outcome oracles.  Python string operations
used by the source (`str.replace`, `str.lower`, `str.upper`, `str.endswith`,
`str.startswith`, and the two `re` patterns of the form `"key"\s+"(.+?)"`)
are embedded below; ASCII case mapping suffices for the alphabet the source
manipulates (archive identifiers, extensions, manifest keys).
-/

namespace GTA5

/-- Python `str.lower` (ASCII repertoire). -/
def pyLower (s : String) : String := ⟨s.data.map Char.toLower⟩

/-- Python `str.upper` (ASCII repertoire). -/
def pyUpper (s : String) : String := ⟨s.data.map Char.toUpper⟩

/-- Python `s.endswith (t)`. -/
def pyEndsWith (s t : String) : Bool := t.data.isSuffixOf s.data

/-- Python `s.startswith (t)`. -/
def pyStartsWith (s t : String) : Bool := t.data.isPrefixOf s.data

/-- Fuel-driven worker for Python `str.replace`: scan left to right, replacing
each non-overlapping occurrence of `old` by `new`.  `fuel ≥ s.length` makes the
fuel irrelevant (each step consumes at least one character). -/
def replaceFuel (old new : List Char) : Nat → List Char → List Char
  | 0, s => s
  | _ + 1, [] => []
  | fuel + 1, c :: rest =>
    if old ≠ [] ∧ old.isPrefixOf (c :: rest) then
      new ++ replaceFuel old new fuel ((c :: rest).drop old.length)
    else
      c :: replaceFuel old new fuel rest

/-- Python `str.replace` on character lists. -/
def replaceL (old new s : List Char) : List Char := replaceFuel old new s.length s

/-- Python `s.replace (old, new)`. -/
def pyReplace (s old new : String) : String := ⟨replaceL old.data new.data s.data⟩

/-- `pat` occurs as a contiguous substring of `s`. -/
def containsSub (pat : List Char) : List Char → Bool
  | [] => pat.isEmpty
  | c :: rest => pat.isPrefixOf (c :: rest) || containsSub pat rest

/-- `sub` occurs as a contiguous substring of `s` (string version). -/
def hasSub (s sub : String) : Bool := containsSub sub.data s.data

/-- Characters matched by `\s` in the source's regexes (ASCII repertoire). -/
def isPySpace (c : Char) : Bool :=
  c = ' ' || c = '\t' || c = '\n' || c = '\r' || c = '\x0b' || c = '\x0c'

/-- Lazy capture of `(.+?)"`: having already consumed at least one character
(in `acc`, reversed), keep consuming non-newline characters until the first
`"`.  Returns the capture and the remainder after the closing quote. -/
def captureGo (acc : List Char) : List Char → Option (List Char × List Char)
  | [] => none
  | c :: rest =>
    if c = '"' then some (acc.reverse, rest)
    else if c = '\n' then none
    else captureGo (c :: acc) rest

/-- Try to match the regex `"key"\s+"(.+?)"` at the head of `s`; on success
return the capture and the remainder of `s` after the match.  The `\s+` is
effectively "a nonempty space run followed by a quote" (no space is a quote,
so greedy matching cannot backtrack into an alternative), and the lazy `(.+?)`
takes one arbitrary non-newline character and then everything up to the first
following quote. -/
def kvTryMatch (key : List Char) (s : List Char) : Option (List Char × List Char) :=
  let lit := '"' :: (key ++ ['"'])
  if lit.isPrefixOf s then
    let s1 := s.drop lit.length
    if (s1.takeWhile isPySpace).length = 0 then none
    else
      match s1.dropWhile isPySpace with
      | '"' :: s2 =>
        match s2 with
        | [] => none
        | c :: s3 => if c = '\n' then none else captureGo [c] s3
      | _ => none
  else none

/-- Fuel-driven worker for `re.findall` of `"key"\s+"(.+?)"`: try the pattern
at every position, resuming after each (nonempty) match.  `fuel ≥ s.length`
makes the fuel irrelevant. -/
def kvFindAllFuel (key : List Char) : Nat → List Char → List String
  | 0, _ => []
  | _ + 1, [] => []
  | fuel + 1, c :: rest =>
    match kvTryMatch key (c :: rest) with
    | some (cap, after) => (⟨cap⟩ : String) :: kvFindAllFuel key fuel after
    | none => kvFindAllFuel key fuel rest

/-- All captures of `re.findall (r..key..\s+..capture.., s)`, in order. -/
def kvFindAll (key : String) (s : List Char) : List String :=
  kvFindAllFuel key.data s.length s

/-! ## Filesystem model

A path is a list of segments; a user-supplied path string (from the command
line, the registry, or a parsed manifest) is one opaque segment, and `/` on
`pathlib.Path` appends a segment.  A `World` is the visible filesystem: the
set of directories (in creation/iteration order) and the files with their
data; `FileData.unreadable` models a file whose `open`/`read` raises. -/

abbrev FsPath := List String

inductive FileData
  | ok (content : String)
  | unreadable
deriving DecidableEq

structure World where
  dirs : List FsPath
  files : List (FsPath × FileData)
deriving DecidableEq

def lookupFile (w : World) (p : FsPath) : Option FileData :=
  (w.files.find? (fun e => e.1 == p)).map (fun e => e.2)

def fileExists (w : World) (p : FsPath) : Bool := (lookupFile w p).isSome

def dirExists (w : World) (p : FsPath) : Bool := w.dirs.contains p

/-- `Path.exists ()`: the path is a directory or a file. -/
def pathExists (w : World) (p : FsPath) : Bool := dirExists w p || fileExists w p

/-- `Path.mkdir ()` (single level, pre-existing directory left untouched). -/
def addDir (w : World) (p : FsPath) : World :=
  if w.dirs.contains p then w else { w with dirs := w.dirs ++ [p] }

/-- The nonempty prefixes of a path, shortest first. -/
def prefixesOf (p : FsPath) : List FsPath :=
  (List.range p.length).map (fun i => p.take (i + 1))

/-- `Path.mkdir (parents := True, exist_ok := True)`. -/
def mkdirParents (w : World) (p : FsPath) : World :=
  (prefixesOf p).foldl addDir w

/-- `open (p, "w")` followed by a full write: replaces any previous file. -/
def writeFile (w : World) (p : FsPath) (d : FileData) : World :=
  { w with files := w.files.filter (fun e => e.1 != p) ++ [(p, d)] }

/-- `shutil.rmtree (p)`: removes `p` and everything below it. -/
def rmtree (w : World) (p : FsPath) : World :=
  { dirs := w.dirs.filter (fun d => !(p.isPrefixOf d)),
    files := w.files.filter (fun e => !(p.isPrefixOf e.1)) }

/-- The files strictly below `root`, in filesystem order: the file lists that
`os.walk (root)` yields, flattened in traversal order. -/
def walkFiles (w : World) (root : FsPath) : List FsPath :=
  (w.files.map (fun e => e.1)).filter
    (fun p => root.isPrefixOf p && decide (root.length < p.length))

/-- The names of the immediate subdirectories of `p`, in iteration order: the
entries of `Path.iterdir ()` that pass `is_dir ()`. -/
def childDirNames (w : World) (p : FsPath) : List String :=
  ((w.dirs.filter (fun d => p.isPrefixOf d && decide (d.length = p.length + 1))).map
    (fun d => d.getLastD ""))

/-! ## The station mapping and the subprocess wrappers -/

/-- `STATION_MAP` of the source, in insertion (= iteration) order. -/
def STATION_MAP : List (String × String) :=
  [ ("RADIO_01_CLASS_ROCK", "Los Santos Rock Radio"),
    ("RADIO_02_POP", "Non-Stop-Pop FM"),
    ("RADIO_03_HIPHOP_NEW", "Radio Los Santos"),
    ("RADIO_04_PUNK", "Channel X"),
    ("RADIO_05_TALK_01", "West Coast Talk Radio"),
    ("RADIO_06_COUNTRY", "Rebel Radio"),
    ("RADIO_07_DANCE_01", "Soulwax FM"),
    ("RADIO_08_MEXICAN", "East Los FM"),
    ("RADIO_09_HIPHOP_OLD", "West Coast Classics"),
    ("RADIO_11_TALK_02", "Blaine County Radio"),
    ("RADIO_12_REGGAE", "The Blue Ark"),
    ("RADIO_13_JAZZ", "Worldwide FM"),
    ("RADIO_14_DANCE_02", "FlyLo FM"),
    ("RADIO_15_MOTOWN", "The Lowdown 91.1"),
    ("RADIO_16_SILVERLAKE", "Radio Mirror Park"),
    ("RADIO_17_FUNK", "Space 103.2"),
    ("RADIO_18_90S_ROCK", "Vinewood Boulevard Radio"),
    ("RADIO_19_USER", "Self Radio"),
    ("RADIO_20_THELAB", "The Lab"),
    ("RADIO_21_DLC_XM17", "Blonded Los Santos 97.8 FM"),
    ("RADIO_22_DLC_BATTLE_MIX1", "Los Santos Underground Radio"),
    ("RADIO_23_DLC_XM19_RADIO", "iFruit Radio"),
    ("RADIO_27_DLC_PRP2022_RADIO", "Motomami Los Santos") ]

def stationKeys : List String := STATION_MAP.map (fun e => e.1)

def GTA5_APP_ID : String := "271590"

/-- One invocation of an external executable, as seen by `subprocess.run`:
either the process ran and exited with a code, or launching it raised
(e.g. `FileNotFoundError` for a missing executable). -/
inductive SubprocessOutcome
  | exit (code : Nat)
  | launchFailure
deriving DecidableEq

/-- `convert_awc` of the source: `subprocess.run (check := True)` inside a
`try` that handles only `subprocess.CalledProcessError`.  A zero exit returns
`True`, a non-zero exit is caught and returns `False`, and a launch failure
propagates out of the function (`.error`). -/
def convert_awc (o : SubprocessOutcome) : Except Unit Bool :=
  match o with
  | .exit 0 => .ok true
  | .exit (_ + 1) => .ok false
  | .launchFailure => .error ()

/-- `extract_rpf` of the source: same invocation, but the `try` has both a
`CalledProcessError` handler and a catch-all `except Exception` handler, so
every failure is reported as `False`. -/
def extract_rpf (o : SubprocessOutcome) : Bool :=
  match o with
  | .exit 0 => true
  | .exit (_ + 1) => false
  | .launchFailure => false

/-! ## `create_station_info` and `process_station_folder` -/

/-- The exact text `json.dump ({"generation": 5, "name": "Grand Theft Auto V"},
f, indent=4)` writes. -/
def stationGroupInfoJson : String :=
  "\x7b\n    \"generation\": 5,\n    \"name\": \"Grand Theft Auto V\"\n\x7d"

def infoFileName : String := "stationGroupInfo.json"

/-- `create_station_info`: write the group-metadata file only if absent. -/
def create_station_info (w : World) (outputDir : FsPath) : World :=
  let infoPath := outputDir ++ [infoFileName]
  if fileExists w infoPath then w
  else writeFile w infoPath (.ok stationGroupInfoJson)

/-- The conversion guard `file.lower ().endswith (".awc")`. -/
def isAwc (f : String) : Bool := pyEndsWith (pyLower f) ".awc"

/-- The output filename
`file.replace (".awc", ".wav").replace (".AWC", ".wav")`. -/
def awcOutputName (f : String) : String :=
  pyReplace (pyReplace f ".awc" ".wav") ".AWC" ".wav"

/-- The audio the transcoder writes for a given source file (opaque marker
distinguishing distinct sources). -/
def transcoded (src : FsPath) : String := "wav-of:" ++ String.intercalate "/" src

/-- The conversions the `os.walk` loop of `process_station_folder` attempts,
in order: every file under the station folder whose lowercased name ends in
`.awc`, paired with its target inside the Songs directory. -/
def plannedConversions (w : World) (folder songs : FsPath) : List (FsPath × FsPath) :=
  (walkFiles w folder).filterMap fun p =>
    if isAwc (p.getLastD "") then some (p, songs ++ [awcOutputName (p.getLastD "")])
    else none

/-- Result of station processing: normal completion with the new world and the
conversion-call counter, or a propagating Python exception captured with the
filesystem state at that moment. -/
inductive OrgResult
  | ok (w : World) (k : Nat)
  | raised (w : World)
deriving DecidableEq

def orgWorld : OrgResult → World
  | .ok w _ => w
  | .raised w => w

def isRaised : OrgResult → Bool
  | .ok _ _ => false
  | .raised _ => true

/-- The conversion loop of `process_station_folder`: `conv k` is the outcome
of the `k`-th `vgmstream-cli` invocation of the run.  A successful conversion
writes the output file; a caught failure writes nothing and continues; a
launch failure propagates. -/
def convLoop (conv : Nat → SubprocessOutcome) :
    List (FsPath × FsPath) → World → Nat → OrgResult
  | [], w, k => .ok w k
  | (src, dst) :: rest, w, k =>
    match convert_awc (conv k) with
    | .ok true => convLoop conv rest (writeFile w dst (.ok (transcoded src))) (k + 1)
    | .ok false => convLoop conv rest w (k + 1)
    | .error _ => .raised w

/-- `process_station_folder`: create the station and Songs directories, then
convert every `.awc` file found under the station folder. -/
def process_station_folder (conv : Nat → SubprocessOutcome) (w : World)
    (stationFolder outputDir : FsPath) (stationName : String) (k : Nat) : OrgResult :=
  let w1 := mkdirParents w (outputDir ++ [stationName])
  let w2 := mkdirParents w1 (outputDir ++ [stationName, "Songs"])
  convLoop conv (plannedConversions w2 stationFolder (outputDir ++ [stationName, "Songs"])) w2 k

/-! ## Steam locator: `parse_library_folders` and `find_gta5_install` -/

def backslash2 : String := "\\\\"
def backslash1 : String := "\\"

/-- `parse_library_folders`: start from the Steam root, add one library folder
per regex match of `"path"\s+"(.+?)"` in `libraryfolders.vdf` (each match
unescaped by `replace ("\\\\", "\\")` and wrapped in `Path`), and return
`list (set (...))` — deduplicated.  An absent manifest yields just the root;
an unreadable one is caught after zero appends. -/
def parse_library_folders (w : World) (steamPath : FsPath) : List FsPath :=
  match lookupFile w (steamPath ++ ["steamapps", "libraryfolders.vdf"]) with
  | none => [steamPath]
  | some .unreadable => ([steamPath] : List FsPath).dedup
  | some (.ok content) =>
    (steamPath :: (kvFindAll "path" content.data).map
      (fun m => ([pyReplace m backslash2 backslash1] : FsPath))).dedup

def manifestName : String := "appmanifest_" ++ GTA5_APP_ID ++ ".acf"

/-- `find_gta5_install`: walk the library folders in order; for each, if the
app manifest exists, read it (a raised read is caught and the search goes on),
take the first `"installdir"` capture, form
`lib/steamapps/common/<installdir>`, and return it if it exists on disk. -/
def find_gta5_install (w : World) : List FsPath → Option FsPath
  | [] => none
  | lib :: rest =>
    if fileExists w (lib ++ ["steamapps", manifestName]) then
      match lookupFile w (lib ++ ["steamapps", manifestName]) with
      | some (.ok content) =>
        match (kvFindAll "installdir" content.data).head? with
        | some d =>
          if pathExists w (lib ++ ["steamapps", "common", d]) then
            some (lib ++ ["steamapps", "common", d])
          else find_gta5_install w rest
        | none => find_gta5_install w rest
      | _ => find_gta5_install w rest
    else find_gta5_install w rest

/-- The candidate one library folder contributes, following the wording of the
spec (section 4.1 step 3): extract `"installdir"` from the library's readable
app manifest, join the library folder, the fixed common-apps subpath and the
extracted name, and keep the result only if it exists on disk.  Used to state
the refinement theorem for `find_gta5_install`. -/
def installCandidate (w : World) (lib : FsPath) : Option FsPath :=
  match lookupFile w (lib ++ ["steamapps", manifestName]) with
  | some (.ok content) =>
    match (kvFindAll "installdir" content.data).head? with
    | some d =>
      if pathExists w (lib ++ ["steamapps", "common", d]) then
        some (lib ++ ["steamapps", "common", d])
      else none
    | none => none
  | _ => none

/-! ## Auto-detect extraction phase -/

/-- State threaded through the extraction loops: the filesystem, the number of
`rpf-cli` invocations so far, and the invocations performed
(source archive, destination directory), in order. -/
structure ExtState where
  w : World
  e : Nat
  calls : List (FsPath × FsPath)
deriving DecidableEq

/-- Effect of a successful `rpf-cli` run: the destination directory appears,
holding the archive's decoded files (given by the oracle as paths relative to
the destination; files are strictly inside the directory). -/
def extractInto (w : World) (dst : FsPath) (rel : List (FsPath × FileData)) : World :=
  let w1 := addDir w dst
  { w1 with
    files := w1.files ++ (rel.filter (fun r => !r.1.isEmpty)).map
      (fun r => (dst ++ r.1, r.2)) }

/-- One `extract_rpf` call inside `main`: `eo n` is the outcome of the `n`-th
`rpf-cli` invocation of the run and `ef n` the contents it would decode.
Every failure is caught inside `extract_rpf`, so the state always survives. -/
def extractStep (eo : Nat → SubprocessOutcome) (ef : Nat → List (FsPath × FileData))
    (st : ExtState) (src dst : FsPath) : ExtState :=
  if extract_rpf (eo st.e) then
    { w := extractInto st.w dst (ef st.e), e := st.e + 1, calls := st.calls ++ [(src, dst)] }
  else
    { st with e := st.e + 1, calls := st.calls ++ [(src, dst)] }

/-- The base-game loop of `main`: for each known identifier, if
`x64/audio/sfx/<id>.rpf` exists, extract it into `temp/<id>`. -/
def baseLoop (eo : Nat → SubprocessOutcome) (ef : Nat → List (FsPath × FileData))
    (gta5 temp : FsPath) : List String → ExtState → ExtState
  | [], st => st
  | name :: rest, st =>
    let rpfFile := gta5 ++ ["x64", "audio", "sfx", name ++ ".rpf"]
    let st1 :=
      if fileExists st.w rpfFile then extractStep eo ef st rpfFile (temp ++ [name])
      else st
    baseLoop eo ef gta5 temp rest st1

/-- The DLC-scan filename test of `main`: uppercased name starts with
`RADIO_`, lowercased name ends with `.rpf`, and the name minus its last four
characters, uppercased, is a known identifier — which is then returned. -/
def dlcCandidate (name : String) : Option String :=
  if pyStartsWith (pyUpper name) "RADIO_" && pyEndsWith (pyLower name) ".rpf" then
    let sid := pyUpper ⟨name.data.take (name.data.length - 4)⟩
    if stationKeys.contains sid then some sid else none
  else none

/-- The DLC loop of `main` over the walked files of `update/x64/dlcpacks`:
matching archives are extracted into `temp/<id>`, guarded by
`if not extract_to.exists ()` against the current filesystem. -/
def dlcLoop (eo : Nat → SubprocessOutcome) (ef : Nat → List (FsPath × FileData))
    (temp : FsPath) : List FsPath → ExtState → ExtState
  | [], st => st
  | p :: rest, st =>
    let st1 :=
      match dlcCandidate (p.getLastD "") with
      | some sid =>
        if pathExists st.w (temp ++ [sid]) then st
        else extractStep eo ef st p (temp ++ [sid])
      | none => st
    dlcLoop eo ef temp rest st1

/-! ## `main` -/

structure Args where
  input : Option String
  output : String
  vgmstream : String
  rpf_cli : Option String
  auto_detect : Bool
deriving DecidableEq

/-- Python truthiness of an optional string flag (`if args.input:`). -/
def optTruthy : Option String → Bool
  | none => false
  | some s => s != ""

def tempDirName : String := "temp_gta5_extraction"

def tempDir : FsPath := [tempDirName]

/-- Outcome of the input-resolution part of `main` (everything between the
group setup and the organize loop): either an early `return`, or a resolved
input directory together with whether the temporary directory was created. -/
inductive ResolveResult
  | aborted (w : World)
  | resolved (w : World) (inputDir : FsPath) (tempCreated : Bool)
deriving DecidableEq

/-- `main`'s removal of a stale temporary directory from a prior interrupted
run. -/
def stalePurge (w : World) : World :=
  if pathExists w tempDir then rmtree w tempDir else w

/-- The base-game extraction of `main`, guarded by the existence of
`x64/audio/sfx`. -/
def basePhase (eo : Nat → SubprocessOutcome) (ef : Nat → List (FsPath × FileData))
    (gta5 : FsPath) (st : ExtState) : ExtState :=
  if pathExists st.w (gta5 ++ ["x64", "audio", "sfx"]) then
    baseLoop eo ef gta5 tempDir stationKeys st
  else st

/-- The DLC scan of `main`, guarded by the existence of
`update/x64/dlcpacks` and walking its files. -/
def dlcPhase (eo : Nat → SubprocessOutcome) (ef : Nat → List (FsPath × FileData))
    (gta5 : FsPath) (st : ExtState) : ExtState :=
  if pathExists st.w (gta5 ++ ["update", "x64", "dlcpacks"]) then
    dlcLoop eo ef tempDir (walkFiles st.w (gta5 ++ ["update", "x64", "dlcpacks"])) st
  else st

/-- The temporary-directory management and the two extraction loops of
`main`'s auto-detect path: remove a stale temporary directory, recreate it,
extract the base-game archives found under `x64/audio/sfx`, then scan the
walked files of `update/x64/dlcpacks`. -/
def extractPhase (eo : Nat → SubprocessOutcome) (ef : Nat → List (FsPath × FileData))
    (gta5 : FsPath) (w : World) : ExtState :=
  dlcPhase eo ef gta5 (basePhase eo ef gta5 ⟨addDir (stalePurge w) tempDir, 0, []⟩)

/-- Input resolution and (on the auto-detect path) extraction, exactly as
sequenced in `main`: explicit input short-circuits; otherwise auto-detection
runs the locator, requires `--rpf-cli`, and runs the extraction phase.  All
early `return`s happen before the temporary directory is created. -/
def resolveAndExtract (args : Args) (steamReg : Option String)
    (eo : Nat → SubprocessOutcome) (ef : Nat → List (FsPath × FileData))
    (w : World) : ResolveResult :=
  if optTruthy args.input then .resolved w [args.input.getD ""] false
  else if args.auto_detect then
    match steamReg with
    | none => .aborted w
    | some sp =>
      match find_gta5_install w (parse_library_folders w [sp]) with
      | none => .aborted w
      | some gta5 =>
        if optTruthy args.rpf_cli then
          .resolved (extractPhase eo ef gta5 w).w tempDir true
        else .aborted w
    else .aborted w

/-- The folder-matching step of the organize loop: first `iterdir` pass keeps
the first directory whose uppercased name equals the uppercased identifier;
only if that finds nothing, a second pass matches the identifier with `.rpf`
appended. -/
def selectStationChild (w : World) (inputDir : FsPath) (rpfName : String) : Option String :=
  match (childDirNames w inputDir).find? (fun n => pyUpper n == pyUpper rpfName) with
  | some n => some n
  | none =>
    (childDirNames w inputDir).find? (fun n => pyUpper n == pyUpper (rpfName ++ ".rpf"))

/-- The organize loop of `main` over `STATION_MAP.items ()`: process the
matched station folder if any, silently skip the station otherwise.  A raised
conversion exception aborts the loop. -/
def organizeAll (conv : Nat → SubprocessOutcome) :
    List (String × String) → World → FsPath → FsPath → Nat → OrgResult
  | [], w, _, _, k => .ok w k
  | (rpfName, stationName) :: rest, w, inputDir, outputDir, k =>
    match selectStationChild w inputDir rpfName with
    | some childName =>
      match process_station_folder conv w (inputDir ++ [childName]) outputDir stationName k with
      | .ok w1 k1 => organizeAll conv rest w1 inputDir outputDir k1
      | .raised w1 => .raised w1
    | none => organizeAll conv rest w inputDir outputDir k

/-- End state of one run: normal termination, or death by an uncaught Python
exception, in both cases with the filesystem left behind. -/
inductive MainResult
  | completed (w : World)
  | crashed (w : World)
deriving DecidableEq

def finalWorld : MainResult → World
  | .completed w => w
  | .crashed w => w

def isCrashed : MainResult → Bool
  | .completed _ => false
  | .crashed _ => true

def outputGroupDir (args : Args) : FsPath := [args.output, "Grand Theft Auto V"]

/-- The setup step of `main`: create the group directory if absent, then the
group-metadata file if absent. -/
def setupOutput (args : Args) (w : World) : World :=
  let od := outputGroupDir args
  let w1 := if pathExists w od then w else mkdirParents w od
  create_station_info w1 od

/-- `main`: setup, input resolution/extraction, the existence check on the
resolved input directory (an early `return` that skips cleanup), the organize
loop, and the cleanup of the temporary directory.  A conversion launch
failure propagates out of the organize loop and past the cleanup. -/
def main (args : Args) (steamReg : Option String) (conv eo : Nat → SubprocessOutcome)
    (ef : Nat → List (FsPath × FileData)) (w : World) : MainResult :=
  let od := outputGroupDir args
  let w1 := setupOutput args w
  match resolveAndExtract args steamReg eo ef w1 with
  | .aborted w2 => .completed w2
  | .resolved w2 inputDir tempCreated =>
    if pathExists w2 inputDir then
      match organizeAll conv STATION_MAP w2 inputDir od 0 with
      | .ok w3 _ =>
        .completed (if tempCreated && pathExists w3 tempDir then rmtree w3 tempDir else w3)
      | .raised w3 => .crashed w3
    else .completed w2

/-! ## Lemmas about the string primitives -/

theorem replaceFuel_eq_self (old new : List Char) :
    ∀ (fuel : Nat) (s : List Char), containsSub old s = false →
      replaceFuel old new fuel s = s := by
  intro fuel
  induction fuel with
  | zero => intro s _; rfl
  | succ f ih =>
    intro s h
    match s with
    | [] => rfl
    | c :: rest =>
      rw [containsSub, Bool.or_eq_false_iff] at h
      rw [replaceFuel, if_neg, ih rest h.2]
      intro hc
      rw [hc.2] at h
      exact absurd h.1 (by simp)

theorem prefix_dropLast {l m : List Char} (h : l <+: m) (hlen : l.length < m.length) :
    l <+: m.dropLast := by
  have hl : l = m.take l.length := List.prefix_iff_eq_take.mp h
  have : m.dropLast.take l.length = m.take l.length := by
    rw [List.dropLast_eq_take, List.take_take]
    congr 1
    omega
  rw [hl, ← this]
  exact List.take_prefix _ _

theorem dropLast_cons_of_ne_nil {c : Char} {t : List Char} (h : t ≠ []) :
    (c :: t).dropLast = c :: t.dropLast := by
  match t with
  | [] => exact absurd rfl h
  | x :: t' => rfl

theorem replaceFuel_append_pattern (old new : List Char) (hold : old ≠ []) :
    ∀ (s : List Char) (fuel : Nat), (s ++ old).length ≤ fuel →
      containsSub old ((s ++ old).dropLast) = false →
      replaceFuel old new fuel (s ++ old) = s ++ new := by
  intro s
  induction s with
  | nil =>
    intro fuel hfuel _
    cases old with
    | nil => exact absurd rfl hold
    | cons o ot =>
      simp only [List.nil_append, List.length_cons] at hfuel ⊢
      match fuel, hfuel with
      | f + 1, _ =>
        rw [replaceFuel, if_pos ⟨hold, List.isPrefixOf_iff_prefix.mpr (List.prefix_refl _)⟩,
          List.drop_length]
        have hnil : replaceFuel (o :: ot) new f [] = [] := by
          match f with
          | 0 => rfl
          | _ + 1 => rfl
        rw [hnil, List.append_nil]
  | cons c s' ih =>
    intro fuel hfuel h
    have hne : s' ++ old ≠ [] := by
      intro hc
      exact hold (List.append_eq_nil.mp hc).2
    rw [List.cons_append, dropLast_cons_of_ne_nil hne, containsSub,
      Bool.or_eq_false_iff] at h
    simp only [List.cons_append, List.length_cons] at hfuel
    match fuel, hfuel with
    | f + 1, hfuel =>
      rw [List.cons_append, replaceFuel, if_neg, ih f (by omega) h.2, List.cons_append]
      intro hc
      have hpre : old <+: c :: (s' ++ old) := List.isPrefixOf_iff_prefix.mp hc.2
      have hlt : old.length < (c :: (s' ++ old)).length := by
        simp only [List.length_cons, List.length_append]
        omega
      have : old <+: (c :: (s' ++ old)).dropLast := prefix_dropLast hpre hlt
      rw [dropLast_cons_of_ne_nil hne] at this
      rw [List.isPrefixOf_iff_prefix.mpr this] at h
      exact absurd h.1 (by simp)

theorem string_data_ne_nil {s : String} (h : s ≠ "") : s.data ≠ [] := by
  intro hc
  exact h (by cases s; simp_all)

/-- Python `s.replace (old, new)` is the identity when `old` does not occur
in `s`. -/
theorem pyReplace_eq_self (s old new : String) (h : hasSub s old = false) :
    pyReplace s old new = s := by
  unfold pyReplace replaceL
  rw [replaceFuel_eq_self old.data new.data s.data.length s.data h]

/-- Python `(stem ++ old).replace (old, new)` renames the final `old` to `new`
and leaves the rest unchanged, provided `old` occurs nowhere else (no
occurrence fits inside the string minus its last character). -/
theorem pyReplace_rename (stem old new : String) (hold : old ≠ "")
    (h : containsSub old.data ((stem.data ++ old.data).dropLast) = false) :
    pyReplace (stem ++ old) old new = stem ++ new := by
  unfold pyReplace replaceL
  have hdata : (stem ++ old).data = stem.data ++ old.data := rfl
  rw [hdata]
  rw [replaceFuel_append_pattern old.data new.data (string_data_ne_nil hold) stem.data
    (stem.data ++ old.data).length (le_refl _) h]
  rfl

/-! ## Lemmas about the filesystem operations -/

theorem contains_eq_decide_mem (l : List FsPath) (a : FsPath) :
    l.contains a = decide (a ∈ l) :=
  List.elem_eq_mem a l

theorem find?_key_filter (keep : FsPath × FileData → Bool) (q : FsPath)
    (h : ∀ e : FsPath × FileData, e.1 = q → keep e = true) :
    ∀ l : List (FsPath × FileData),
      (l.filter keep).find? (fun e => e.1 == q) = l.find? (fun e => e.1 == q) := by
  intro l
  induction l with
  | nil => rfl
  | cons e rest ih =>
    by_cases hq : e.1 = q
    · have hb : (e.1 == q) = true := by simp [hq]
      rw [List.filter_cons_of_pos (h e hq), List.find?_cons, List.find?_cons]
      simp only [hb]
    · have hb : (e.1 == q) = false := by simp [hq]
      by_cases hk : keep e = true
      · rw [List.filter_cons_of_pos hk, List.find?_cons, List.find?_cons]
        simp only [hb]
        exact ih
      · rw [List.filter_cons_of_neg hk, List.find?_cons, ih]
        simp only [hb]

theorem lookupFile_writeFile_self (w : World) (p : FsPath) (d : FileData) :
    lookupFile (writeFile w p d) p = some d := by
  unfold lookupFile writeFile
  have hnone : ((w.files.filter (fun e => e.1 != p)).find? (fun e => e.1 == p)) = none := by
    rw [List.find?_eq_none]
    intro x hx
    have := (List.mem_filter.mp hx).2
    simp_all
  simp [List.find?_append, hnone]

theorem lookupFile_writeFile_ne (w : World) (p q : FsPath) (d : FileData) (h : q ≠ p) :
    lookupFile (writeFile w p d) q = lookupFile w q := by
  unfold lookupFile writeFile
  simp only
  rw [List.find?_append, find?_key_filter _ q (fun e he => by simp [he, h])]
  cases hf : w.files.find? (fun e => e.1 == q) with
  | some e => simp
  | none => simp [show (p == q) = false by simp [Ne.symm h]]

theorem dirs_writeFile (w : World) (p : FsPath) (d : FileData) :
    (writeFile w p d).dirs = w.dirs := rfl

theorem files_addDir (w : World) (p : FsPath) : (addDir w p).files = w.files := by
  unfold addDir
  split <;> rfl

theorem pathExists_addDir_ne (w : World) (p q : FsPath) (h : q ≠ p) :
    pathExists (addDir w p) q = pathExists w q := by
  unfold pathExists dirExists fileExists lookupFile addDir
  split
  · rfl
  · rw [contains_eq_decide_mem, contains_eq_decide_mem]
    simp [h]

theorem mem_dirs_addDir (w : World) (p q : FsPath) :
    q ∈ (addDir w p).dirs ↔ q ∈ w.dirs ∨ q = p := by
  unfold addDir
  split
  · rename_i hmem
    constructor
    · exact fun h => Or.inl h
    · rintro (h | h)
      · exact h
      · subst h; simpa using hmem
  · simp

theorem pathExists_writeFile_ne (w : World) (p q : FsPath) (d : FileData) (h : q ≠ p) :
    pathExists (writeFile w p d) q = pathExists w q := by
  unfold pathExists dirExists
  rw [dirs_writeFile]
  unfold fileExists
  rw [lookupFile_writeFile_ne w p q d h]

theorem files_foldl_addDir (w : World) (l : List FsPath) :
    (l.foldl addDir w).files = w.files := by
  induction l generalizing w with
  | nil => rfl
  | cons p rest ih => rw [List.foldl_cons, ih, files_addDir]

theorem pathExists_foldl_addDir_ne (w : World) (l : List FsPath) (q : FsPath)
    (h : ∀ r ∈ l, q ≠ r) :
    pathExists (l.foldl addDir w) q = pathExists w q := by
  induction l generalizing w with
  | nil => rfl
  | cons p rest ih =>
    rw [List.foldl_cons, ih _ (fun r hr => h r (List.mem_cons_of_mem _ hr)),
      pathExists_addDir_ne _ _ _ (h p (List.mem_cons_self _ _))]

theorem mem_dirs_foldl_addDir (w : World) (l : List FsPath) (q : FsPath) :
    q ∈ (l.foldl addDir w).dirs ↔ q ∈ w.dirs ∨ q ∈ l := by
  induction l generalizing w with
  | nil => simp
  | cons p rest ih =>
    rw [List.foldl_cons, ih, mem_dirs_addDir]
    constructor
    · rintro ((h | h) | h)
      · exact Or.inl h
      · exact Or.inr (by simp [h])
      · exact Or.inr (List.mem_cons_of_mem _ h)
    · rintro (h | h)
      · exact Or.inl (Or.inl h)
      · rcases List.mem_cons.mp h with h | h
        · exact Or.inl (Or.inr h)
        · exact Or.inr h

theorem mem_prefixesOf {p r : FsPath} (h : r ∈ prefixesOf p) :
    r ≠ [] ∧ r.head? = p.head? ∧ r <+: p := by
  unfold prefixesOf at h
  rcases List.mem_map.mp h with ⟨i, hi, rfl⟩
  have hilt : i < p.length := List.mem_range.mp hi
  refine ⟨?_, ?_, List.take_prefix _ _⟩
  · intro hc
    have := congrArg List.length hc
    simp only [List.length_take, List.length_nil] at this
    omega
  · cases p with
    | nil => simp at hilt
    | cons a t => rfl

theorem files_mkdirParents (w : World) (p : FsPath) :
    (mkdirParents w p).files = w.files := files_foldl_addDir w _

theorem lookupFile_mkdirParents (w : World) (p q : FsPath) :
    lookupFile (mkdirParents w p) q = lookupFile w q := by
  unfold lookupFile
  rw [files_mkdirParents]

theorem pathExists_mkdirParents_ne_head (w : World) (p q : FsPath)
    (h : q.head? ≠ p.head?) :
    pathExists (mkdirParents w p) q = pathExists w q := by
  unfold mkdirParents
  refine pathExists_foldl_addDir_ne w _ q (fun r hr => ?_)
  intro hc
  subst hc
  exact h (mem_prefixesOf hr).2.1

theorem mem_dirs_mkdirParents (w : World) (p q : FsPath) :
    q ∈ (mkdirParents w p).dirs ↔ q ∈ w.dirs ∨ q ∈ prefixesOf p :=
  mem_dirs_foldl_addDir w _ q

theorem pathExists_rmtree_self (w : World) (p : FsPath) :
    pathExists (rmtree w p) p = false := by
  have hp : p.isPrefixOf p = true := List.isPrefixOf_iff_prefix.mpr (List.prefix_refl p)
  have h1 : p ∉ w.dirs.filter (fun d => !p.isPrefixOf d) := by
    intro hmem
    have := (List.mem_filter.mp hmem).2
    rw [hp] at this
    simp at this
  have h2 : (w.files.filter (fun e => !p.isPrefixOf e.1)).find? (fun e => e.1 == p) = none := by
    rw [List.find?_eq_none]
    intro x hx hbeq
    have hkeep := (List.mem_filter.mp hx).2
    have hx1 : x.1 = p := by simpa using hbeq
    rw [hx1, hp] at hkeep
    simp at hkeep
  unfold pathExists dirExists fileExists lookupFile rmtree
  simp only
  rw [contains_eq_decide_mem, h2]
  simp [h1]

theorem pathExists_rmtree_not_pfx (w : World) (p q : FsPath)
    (h : p.isPrefixOf q = false) :
    pathExists (rmtree w p) q = pathExists w q := by
  unfold pathExists dirExists fileExists lookupFile rmtree
  simp only
  rw [contains_eq_decide_mem, contains_eq_decide_mem,
    find?_key_filter _ q (fun e he => by rw [he, h]; rfl)]
  congr 1
  simp [List.mem_filter, h]

theorem lookupFile_rmtree_not_pfx (w : World) (p q : FsPath)
    (h : p.isPrefixOf q = false) :
    lookupFile (rmtree w p) q = lookupFile w q := by
  unfold lookupFile rmtree
  simp only
  rw [find?_key_filter _ q (fun e he => by rw [he, h]; rfl)]

/-! ## Lemmas about the conversion and organize loops -/

theorem mem_plannedConversions {w : World} {folder songs : FsPath} {pr : FsPath × FsPath} :
    pr ∈ plannedConversions w folder songs ↔
      pr.1 ∈ walkFiles w folder ∧ isAwc (pr.1.getLastD "") = true ∧
        pr.2 = songs ++ [awcOutputName (pr.1.getLastD "")] := by
  unfold plannedConversions
  rw [List.mem_filterMap]
  constructor
  · rintro ⟨p, hp, hf⟩
    split at hf
    · rename_i ha
      injection hf with hf
      subst hf
      exact ⟨hp, ha, rfl⟩
    · exact absurd hf (by simp)
  · rintro ⟨h1, h2, h3⟩
    refine ⟨pr.1, h1, ?_⟩
    rw [if_pos h2, ← h3]

theorem convLoop_dirs (conv : Nat → SubprocessOutcome) :
    ∀ (plan : List (FsPath × FsPath)) (w : World) (k : Nat),
      (orgWorld (convLoop conv plan w k)).dirs = w.dirs := by
  intro plan
  induction plan with
  | nil => intro w k; rfl
  | cons pr rest ih =>
    intro w k
    obtain ⟨src, dst⟩ := pr
    simp only [convLoop]
    cases hc : conv k with
    | exit c =>
      cases c with
      | zero => exact (ih _ _).trans (by rw [dirs_writeFile])
      | succ n => exact ih _ _
    | launchFailure => rfl

theorem convLoop_lookup_preserve (conv : Nat → SubprocessOutcome) (q : FsPath) :
    ∀ (plan : List (FsPath × FsPath)) (w : World) (k : Nat),
      (∀ pr ∈ plan, pr.2 ≠ q) →
      lookupFile (orgWorld (convLoop conv plan w k)) q = lookupFile w q := by
  intro plan
  induction plan with
  | nil => intro w k _; rfl
  | cons pr rest ih =>
    intro w k hq
    obtain ⟨src, dst⟩ := pr
    have hdst : dst ≠ q := hq (src, dst) (List.mem_cons_self _ _)
    have hrest : ∀ pr ∈ rest, pr.2 ≠ q := fun pr hpr => hq pr (List.mem_cons_of_mem _ hpr)
    simp only [convLoop]
    cases hc : conv k with
    | exit c =>
      cases c with
      | zero =>
        exact (ih _ _ hrest).trans
          (lookupFile_writeFile_ne w dst q _ (Ne.symm hdst))
      | succ n => exact ih _ _ hrest
    | launchFailure => rfl

theorem convLoop_pathExists_preserve (conv : Nat → SubprocessOutcome) (q : FsPath) :
    ∀ (plan : List (FsPath × FsPath)) (w : World) (k : Nat),
      (∀ pr ∈ plan, pr.2 ≠ q) →
      pathExists (orgWorld (convLoop conv plan w k)) q = pathExists w q := by
  intro plan
  induction plan with
  | nil => intro w k _; rfl
  | cons pr rest ih =>
    intro w k hq
    obtain ⟨src, dst⟩ := pr
    have hdst : dst ≠ q := hq (src, dst) (List.mem_cons_self _ _)
    have hrest : ∀ pr ∈ rest, pr.2 ≠ q := fun pr hpr => hq pr (List.mem_cons_of_mem _ hpr)
    simp only [convLoop]
    cases hc : conv k with
    | exit c =>
      cases c with
      | zero =>
        exact (ih _ _ hrest).trans
          (pathExists_writeFile_ne w dst q _ (Ne.symm hdst))
      | succ n => exact ih _ _ hrest
    | launchFailure => rfl

theorem convLoop_not_raised (conv : Nat → SubprocessOutcome)
    (h : ∀ n, conv n ≠ .launchFailure) :
    ∀ (plan : List (FsPath × FsPath)) (w : World) (k : Nat),
      isRaised (convLoop conv plan w k) = false := by
  intro plan
  induction plan with
  | nil => intro w k; rfl
  | cons pr rest ih =>
    intro w k
    obtain ⟨src, dst⟩ := pr
    simp only [convLoop]
    cases hc : conv k with
    | exit c =>
      cases c with
      | zero => exact ih _ _
      | succ n => exact ih _ _
    | launchFailure => exact absurd hc (h k)

theorem head?_append_of_ne_nil {l m : FsPath} (h : l ≠ []) :
    (l ++ m).head? = l.head? := by
  cases l with
  | nil => exact absurd rfl h
  | cons a t => rfl

theorem psf_lookup_preserve (conv : Nat → SubprocessOutcome) (w : World)
    (stationFolder outputDir : FsPath) (stationName : String) (k : Nat) (q : FsPath)
    (hq : ∀ x : String, q ≠ (outputDir ++ [stationName, "Songs"]) ++ [x]) :
    lookupFile (orgWorld (process_station_folder conv w stationFolder outputDir stationName k)) q
      = lookupFile w q := by
  unfold process_station_folder
  rw [convLoop_lookup_preserve conv q _ _ k ?hplan, lookupFile_mkdirParents,
    lookupFile_mkdirParents]
  case hplan =>
    intro pr hpr
    have := (mem_plannedConversions.mp hpr).2.2
    rw [this]
    exact fun hc => hq _ (by rw [hc])

theorem psf_pathExists_preserve (conv : Nat → SubprocessOutcome) (w : World)
    (stationFolder outputDir : FsPath) (stationName : String) (k : Nat) (q : FsPath)
    (hod : outputDir ≠ []) (hq : q.head? ≠ outputDir.head?) :
    pathExists (orgWorld (process_station_folder conv w stationFolder outputDir stationName k)) q
      = pathExists w q := by
  unfold process_station_folder
  rw [convLoop_pathExists_preserve conv q _ _ k ?hplan,
    pathExists_mkdirParents_ne_head _ _ _ (by rw [head?_append_of_ne_nil hod]; exact hq),
    pathExists_mkdirParents_ne_head _ _ _ (by rw [head?_append_of_ne_nil hod]; exact hq)]
  case hplan =>
    intro pr hpr
    have := (mem_plannedConversions.mp hpr).2.2
    rw [this]
    intro hc
    apply hq
    rw [← hc, List.append_assoc, head?_append_of_ne_nil hod]

theorem psf_not_raised (conv : Nat → SubprocessOutcome)
    (h : ∀ n, conv n ≠ .launchFailure) (w : World)
    (stationFolder outputDir : FsPath) (stationName : String) (k : Nat) :
    isRaised (process_station_folder conv w stationFolder outputDir stationName k) = false := by
  unfold process_station_folder
  exact convLoop_not_raised conv h _ _ k

theorem organizeAll_lookup_preserve (conv : Nat → SubprocessOutcome) (q : FsPath) :
    ∀ (entries : List (String × String)) (w : World) (inp od : FsPath) (k : Nat),
      (∀ s x : String, q ≠ (od ++ [s, "Songs"]) ++ [x]) →
      lookupFile (orgWorld (organizeAll conv entries w inp od k)) q = lookupFile w q := by
  intro entries
  induction entries with
  | nil => intro w inp od k _; rfl
  | cons e rest ih =>
    intro w inp od k hq
    obtain ⟨rpfName, stationName⟩ := e
    simp only [organizeAll]
    split
    · rename_i childName hsel
      split
      · rename_i w1 k1 hr
        rw [ih w1 inp od k1 hq]
        have := psf_lookup_preserve conv w (inp ++ [childName]) od stationName k q
          (fun x => hq stationName x)
        rw [hr] at this
        exact this
      · rename_i w1 hr
        have := psf_lookup_preserve conv w (inp ++ [childName]) od stationName k q
          (fun x => hq stationName x)
        rw [hr] at this
        exact this
    · exact ih w inp od k hq

theorem organizeAll_pathExists_preserve (conv : Nat → SubprocessOutcome) (q : FsPath) :
    ∀ (entries : List (String × String)) (w : World) (inp od : FsPath) (k : Nat),
      od ≠ [] → q.head? ≠ od.head? →
      pathExists (orgWorld (organizeAll conv entries w inp od k)) q = pathExists w q := by
  intro entries
  induction entries with
  | nil => intro w inp od k _ _; rfl
  | cons e rest ih =>
    intro w inp od k hod hq
    obtain ⟨rpfName, stationName⟩ := e
    simp only [organizeAll]
    split
    · rename_i childName hsel
      split
      · rename_i w1 k1 hr
        rw [ih w1 inp od k1 hod hq]
        have := psf_pathExists_preserve conv w (inp ++ [childName]) od stationName k q hod hq
        rw [hr] at this
        exact this
      · rename_i w1 hr
        have := psf_pathExists_preserve conv w (inp ++ [childName]) od stationName k q hod hq
        rw [hr] at this
        exact this
    · exact ih w inp od k hod hq

theorem organizeAll_not_raised (conv : Nat → SubprocessOutcome)
    (h : ∀ n, conv n ≠ .launchFailure) :
    ∀ (entries : List (String × String)) (w : World) (inp od : FsPath) (k : Nat),
      isRaised (organizeAll conv entries w inp od k) = false := by
  intro entries
  induction entries with
  | nil => intro w inp od k; rfl
  | cons e rest ih =>
    intro w inp od k
    obtain ⟨rpfName, stationName⟩ := e
    simp only [organizeAll]
    split
    · rename_i childName hsel
      split
      · rename_i w1 k1 hr
        exact ih w1 inp od k1
      · rename_i w1 hr
        have := psf_not_raised conv h w (inp ++ [childName]) od stationName k
        rw [hr] at this
        exact absurd this (by simp [isRaised])
    · exact ih w inp od k

/-! ## Lemmas about the extraction phase -/

theorem isPrefixOf_trans {a b c : FsPath} (h1 : a.isPrefixOf b = true)
    (h2 : b.isPrefixOf c = true) : a.isPrefixOf c = true :=
  List.isPrefixOf_iff_prefix.mpr
    ((List.isPrefixOf_iff_prefix.mp h1).trans (List.isPrefixOf_iff_prefix.mp h2))

theorem isPrefixOf_append_right (l m : FsPath) : l.isPrefixOf (l ++ m) = true :=
  List.isPrefixOf_iff_prefix.mpr (List.prefix_append l m)

theorem not_self_of_not_isPrefixOf {p q : FsPath} (h : p.isPrefixOf q = false) : q ≠ p := by
  intro hc
  subst hc
  rw [List.isPrefixOf_iff_prefix.mpr (List.prefix_refl q)] at h
  exact absurd h (by simp)

theorem find?_append_none_of_keys (new : List (FsPath × FileData)) (q : FsPath)
    (h : ∀ e ∈ new, e.1 ≠ q) (l : List (FsPath × FileData)) :
    (l ++ new).find? (fun e => e.1 == q) = l.find? (fun e => e.1 == q) := by
  rw [List.find?_append]
  cases hf : l.find? (fun e => e.1 == q) with
  | some e => rfl
  | none =>
    have : new.find? (fun e => e.1 == q) = none := by
      rw [List.find?_eq_none]
      intro x hx hbeq
      exact h x hx (by simpa using hbeq)
    rw [this]
    rfl

theorem extractInto_keys_ne {dst : FsPath} {rel : List (FsPath × FileData)} {q : FsPath}
    (h : dst.isPrefixOf q = false) :
    ∀ e ∈ (rel.filter (fun r => !r.1.isEmpty)).map (fun r => (dst ++ r.1, r.2)), e.1 ≠ q := by
  intro e he
  rcases List.mem_map.mp he with ⟨r, _, rfl⟩
  intro hc
  rw [← hc, isPrefixOf_append_right] at h
  exact absurd h (by simp)

theorem lookupFile_extractInto_not_pfx (w : World) (dst : FsPath)
    (rel : List (FsPath × FileData)) (q : FsPath) (h : dst.isPrefixOf q = false) :
    lookupFile (extractInto w dst rel) q = lookupFile w q := by
  unfold extractInto lookupFile
  simp only
  rw [files_addDir, find?_append_none_of_keys _ q (extractInto_keys_ne h)]

theorem pathExists_extractInto_not_pfx (w : World) (dst : FsPath)
    (rel : List (FsPath × FileData)) (q : FsPath) (h : dst.isPrefixOf q = false) :
    pathExists (extractInto w dst rel) q = pathExists w q := by
  have hq : q ≠ dst := not_self_of_not_isPrefixOf h
  unfold pathExists
  have h1 : dirExists (extractInto w dst rel) q = dirExists w q := by
    unfold dirExists extractInto
    simp only
    rw [contains_eq_decide_mem, contains_eq_decide_mem]
    simp [mem_dirs_addDir, hq]
  have h2 : fileExists (extractInto w dst rel) q = fileExists w q := by
    unfold fileExists
    rw [lookupFile_extractInto_not_pfx w dst rel q h]
  rw [h1, h2]

theorem extractStep_pathExists_not_pfx (eo : Nat → SubprocessOutcome)
    (ef : Nat → List (FsPath × FileData)) (st : ExtState) (src dst q : FsPath)
    (h : dst.isPrefixOf q = false) :
    pathExists (extractStep eo ef st src dst).w q = pathExists st.w q := by
  unfold extractStep
  split
  · exact pathExists_extractInto_not_pfx st.w dst (ef st.e) q h
  · rfl

theorem extractStep_lookup_not_pfx (eo : Nat → SubprocessOutcome)
    (ef : Nat → List (FsPath × FileData)) (st : ExtState) (src dst q : FsPath)
    (h : dst.isPrefixOf q = false) :
    lookupFile (extractStep eo ef st src dst).w q = lookupFile st.w q := by
  unfold extractStep
  split
  · exact lookupFile_extractInto_not_pfx st.w dst (ef st.e) q h
  · rfl

theorem baseLoop_pathExists_not_pfx (eo : Nat → SubprocessOutcome)
    (ef : Nat → List (FsPath × FileData)) (gta5 temp q : FsPath)
    (h : temp.isPrefixOf q = true → False) :
    ∀ (names : List String) (st : ExtState),
      pathExists (baseLoop eo ef gta5 temp names st).w q = pathExists st.w q := by
  intro names
  induction names with
  | nil => intro st; rfl
  | cons name rest ih =>
    intro st
    simp only [baseLoop]
    rw [ih]
    split
    · refine extractStep_pathExists_not_pfx eo ef st _ _ q ?_
      by_contra hc
      exact h (isPrefixOf_trans (isPrefixOf_append_right temp [name]) (by simp_all))
    · rfl

theorem baseLoop_lookup_not_pfx (eo : Nat → SubprocessOutcome)
    (ef : Nat → List (FsPath × FileData)) (gta5 temp q : FsPath)
    (h : temp.isPrefixOf q = true → False) :
    ∀ (names : List String) (st : ExtState),
      lookupFile (baseLoop eo ef gta5 temp names st).w q = lookupFile st.w q := by
  intro names
  induction names with
  | nil => intro st; rfl
  | cons name rest ih =>
    intro st
    simp only [baseLoop]
    rw [ih]
    split
    · refine extractStep_lookup_not_pfx eo ef st _ _ q ?_
      by_contra hc
      exact h (isPrefixOf_trans (isPrefixOf_append_right temp [name]) (by simp_all))
    · rfl

theorem dlcLoop_pathExists_not_pfx (eo : Nat → SubprocessOutcome)
    (ef : Nat → List (FsPath × FileData)) (temp q : FsPath)
    (h : temp.isPrefixOf q = true → False) :
    ∀ (entries : List FsPath) (st : ExtState),
      pathExists (dlcLoop eo ef temp entries st).w q = pathExists st.w q := by
  intro entries
  induction entries with
  | nil => intro st; rfl
  | cons p rest ih =>
    intro st
    simp only [dlcLoop]
    rw [ih]
    split
    · rename_i sid hsid
      split
      · rfl
      · refine extractStep_pathExists_not_pfx eo ef st _ _ q ?_
        by_contra hc
        exact h (isPrefixOf_trans (isPrefixOf_append_right temp [sid]) (by simp_all))
    · rfl

theorem dlcLoop_lookup_not_pfx (eo : Nat → SubprocessOutcome)
    (ef : Nat → List (FsPath × FileData)) (temp q : FsPath)
    (h : temp.isPrefixOf q = true → False) :
    ∀ (entries : List FsPath) (st : ExtState),
      lookupFile (dlcLoop eo ef temp entries st).w q = lookupFile st.w q := by
  intro entries
  induction entries with
  | nil => intro st; rfl
  | cons p rest ih =>
    intro st
    simp only [dlcLoop]
    rw [ih]
    split
    · rename_i sid hsid
      split
      · rfl
      · refine extractStep_lookup_not_pfx eo ef st _ _ q ?_
        by_contra hc
        exact h (isPrefixOf_trans (isPrefixOf_append_right temp [sid]) (by simp_all))
    · rfl

theorem mem_dirs_extractStep (eo : Nat → SubprocessOutcome)
    (ef : Nat → List (FsPath × FileData)) (st : ExtState) (src dst q : FsPath)
    (h : q ∈ st.w.dirs) : q ∈ (extractStep eo ef st src dst).w.dirs := by
  unfold extractStep
  split
  · unfold extractInto
    simp only
    exact (mem_dirs_addDir _ _ _).mpr (Or.inl h)
  · exact h

theorem mem_dirs_baseLoop (eo : Nat → SubprocessOutcome)
    (ef : Nat → List (FsPath × FileData)) (gta5 temp q : FsPath) :
    ∀ (names : List String) (st : ExtState),
      q ∈ st.w.dirs → q ∈ (baseLoop eo ef gta5 temp names st).w.dirs := by
  intro names
  induction names with
  | nil => intro st h; exact h
  | cons name rest ih =>
    intro st h
    simp only [baseLoop]
    refine ih _ ?_
    split
    · exact mem_dirs_extractStep eo ef st _ _ q h
    · exact h

theorem mem_dirs_dlcLoop (eo : Nat → SubprocessOutcome)
    (ef : Nat → List (FsPath × FileData)) (temp q : FsPath) :
    ∀ (entries : List FsPath) (st : ExtState),
      q ∈ st.w.dirs → q ∈ (dlcLoop eo ef temp entries st).w.dirs := by
  intro entries
  induction entries with
  | nil => intro st h; exact h
  | cons p rest ih =>
    intro st h
    simp only [dlcLoop]
    refine ih _ ?_
    split
    · rename_i sid hsid
      split
      · exact h
      · exact mem_dirs_extractStep eo ef st _ _ q h
    · exact h

/-! ## Lemmas about `resolveAndExtract` and `setupOutput` -/

def resolveWorld : ResolveResult → World
  | .aborted w => w
  | .resolved w _ _ => w

theorem extractPhase_pathExists_not_pfx (eo : Nat → SubprocessOutcome)
    (ef : Nat → List (FsPath × FileData)) (gta5 : FsPath) (w : World) (q : FsPath)
    (h : tempDir.isPrefixOf q = false) :
    pathExists (extractPhase eo ef gta5 w).w q = pathExists w q := by
  have hne : q ≠ tempDir := not_self_of_not_isPrefixOf h
  have hb : tempDir.isPrefixOf q = true → False := by rw [h]; simp
  have hstale : pathExists (stalePurge w) q = pathExists w q := by
    unfold stalePurge
    split
    · exact pathExists_rmtree_not_pfx w tempDir q h
    · rfl
  have hbase : ∀ st : ExtState, pathExists (basePhase eo ef gta5 st).w q = pathExists st.w q := by
    intro st
    unfold basePhase
    split
    · exact baseLoop_pathExists_not_pfx eo ef gta5 tempDir q hb stationKeys st
    · rfl
  have hdlc : ∀ st : ExtState, pathExists (dlcPhase eo ef gta5 st).w q = pathExists st.w q := by
    intro st
    unfold dlcPhase
    split
    · exact dlcLoop_pathExists_not_pfx eo ef tempDir q hb _ st
    · rfl
  unfold extractPhase
  rw [hdlc, hbase]
  show pathExists (addDir (stalePurge w) tempDir) q = pathExists w q
  rw [pathExists_addDir_ne _ _ _ hne, hstale]

theorem extractPhase_lookup_not_pfx (eo : Nat → SubprocessOutcome)
    (ef : Nat → List (FsPath × FileData)) (gta5 : FsPath) (w : World) (q : FsPath)
    (h : tempDir.isPrefixOf q = false) :
    lookupFile (extractPhase eo ef gta5 w).w q = lookupFile w q := by
  have hb : tempDir.isPrefixOf q = true → False := by rw [h]; simp
  have hstale : lookupFile (stalePurge w) q = lookupFile w q := by
    unfold stalePurge
    split
    · exact lookupFile_rmtree_not_pfx w tempDir q h
    · rfl
  have hbase : ∀ st : ExtState, lookupFile (basePhase eo ef gta5 st).w q = lookupFile st.w q := by
    intro st
    unfold basePhase
    split
    · exact baseLoop_lookup_not_pfx eo ef gta5 tempDir q hb stationKeys st
    · rfl
  have hdlc : ∀ st : ExtState, lookupFile (dlcPhase eo ef gta5 st).w q = lookupFile st.w q := by
    intro st
    unfold dlcPhase
    split
    · exact dlcLoop_lookup_not_pfx eo ef tempDir q hb _ st
    · rfl
  unfold extractPhase
  rw [hdlc, hbase]
  show lookupFile (addDir (stalePurge w) tempDir) q = lookupFile w q
  have : lookupFile (addDir (stalePurge w) tempDir) q = lookupFile (stalePurge w) q := by
    unfold lookupFile
    rw [files_addDir]
  rw [this, hstale]

theorem tempDir_mem_extractPhase (eo : Nat → SubprocessOutcome)
    (ef : Nat → List (FsPath × FileData)) (gta5 : FsPath) (w : World) :
    tempDir ∈ (extractPhase eo ef gta5 w).w.dirs := by
  unfold extractPhase
  have h0 : tempDir ∈ (addDir (stalePurge w) tempDir).dirs :=
    (mem_dirs_addDir _ _ _).mpr (Or.inr rfl)
  have h1 : ∀ st : ExtState, tempDir ∈ st.w.dirs →
      tempDir ∈ (basePhase eo ef gta5 st).w.dirs := by
    intro st hst
    unfold basePhase
    split
    · exact mem_dirs_baseLoop eo ef gta5 tempDir tempDir stationKeys st hst
    · exact hst
  have h2 : ∀ st : ExtState, tempDir ∈ st.w.dirs →
      tempDir ∈ (dlcPhase eo ef gta5 st).w.dirs := by
    intro st hst
    unfold dlcPhase
    split
    · exact mem_dirs_dlcLoop eo ef tempDir tempDir _ st hst
    · exact hst
  exact h2 _ (h1 _ h0)

theorem resolve_pathExists_not_pfx (args : Args) (steamReg : Option String)
    (eo : Nat → SubprocessOutcome) (ef : Nat → List (FsPath × FileData))
    (w : World) (q : FsPath) (h : tempDir.isPrefixOf q = false) :
    pathExists (resolveWorld (resolveAndExtract args steamReg eo ef w)) q
      = pathExists w q := by
  unfold resolveAndExtract
  split
  · rfl
  · split
    · split
      · rfl
      · split
        · rfl
        · split
          · exact extractPhase_pathExists_not_pfx eo ef _ w q h
          · rfl
    · rfl

theorem resolve_lookup_not_pfx (args : Args) (steamReg : Option String)
    (eo : Nat → SubprocessOutcome) (ef : Nat → List (FsPath × FileData))
    (w : World) (q : FsPath) (h : tempDir.isPrefixOf q = false) :
    lookupFile (resolveWorld (resolveAndExtract args steamReg eo ef w)) q
      = lookupFile w q := by
  unfold resolveAndExtract
  split
  · rfl
  · split
    · split
      · rfl
      · split
        · rfl
        · split
          · exact extractPhase_lookup_not_pfx eo ef _ w q h
          · rfl
    · rfl

theorem resolve_resolved_true (args : Args) (steamReg : Option String)
    (eo : Nat → SubprocessOutcome) (ef : Nat → List (FsPath × FileData))
    (w w2 : World) (inp : FsPath)
    (h : resolveAndExtract args steamReg eo ef w = .resolved w2 inp true) :
    inp = tempDir ∧ tempDir ∈ w2.dirs := by
  unfold resolveAndExtract at h
  split at h
  · injection h with _ _ hb
    exact absurd hb.symm (by simp)
  · split at h
    · split at h
      · exact absurd h (by simp)
      · split at h
        · exact absurd h (by simp)
        · split at h
          · injection h with hw hi _
            subst hw hi
            exact ⟨rfl, tempDir_mem_extractPhase eo ef _ w⟩
          · exact absurd h (by simp)
    · exact absurd h (by simp)

theorem resolve_resolved_false (args : Args) (steamReg : Option String)
    (eo : Nat → SubprocessOutcome) (ef : Nat → List (FsPath × FileData))
    (w w2 : World) (inp : FsPath)
    (h : resolveAndExtract args steamReg eo ef w = .resolved w2 inp false) :
    w2 = w := by
  unfold resolveAndExtract at h
  split at h
  · injection h with hw _ _
    exact hw.symm
  · split at h
    · split at h
      · exact absurd h (by simp)
      · split at h
        · exact absurd h (by simp)
        · split at h
          · injection h with _ _ hb
            exact absurd hb (by simp)
          · exact absurd h (by simp)
    · exact absurd h (by simp)

theorem setup_lookup_info (args : Args) (w : World) :
    lookupFile (setupOutput args w) (outputGroupDir args ++ [infoFileName]) =
      some ((lookupFile w (outputGroupDir args ++ [infoFileName])).getD
        (.ok stationGroupInfoJson)) := by
  unfold setupOutput create_station_info
  simp only []
  have hfiles : (if pathExists w (outputGroupDir args) = true then w
      else mkdirParents w (outputGroupDir args)).files = w.files := by
    split
    · rfl
    · exact files_mkdirParents w _
  set w1 := if pathExists w (outputGroupDir args) = true then w
    else mkdirParents w (outputGroupDir args) with hw1def
  have hlk : lookupFile w1 (outputGroupDir args ++ [infoFileName]) =
      lookupFile w (outputGroupDir args ++ [infoFileName]) := by
    unfold lookupFile
    rw [hfiles]
  split
  · rename_i hex
    unfold fileExists at hex
    rw [hlk] at hex ⊢
    cases hl : lookupFile w (outputGroupDir args ++ [infoFileName]) with
    | some d => rfl
    | none => rw [hl] at hex; simp at hex
  · rename_i hex
    unfold fileExists at hex
    rw [hlk] at hex
    rw [lookupFile_writeFile_self]
    cases hl : lookupFile w (outputGroupDir args ++ [infoFileName]) with
    | some d => rw [hl] at hex; simp at hex
    | none => rfl

theorem setup_lookup_ne (args : Args) (w : World) (q : FsPath)
    (hq : q ≠ outputGroupDir args ++ [infoFileName]) :
    lookupFile (setupOutput args w) q = lookupFile w q := by
  unfold setupOutput create_station_info
  simp only []
  have hfiles : (if pathExists w (outputGroupDir args) = true then w
      else mkdirParents w (outputGroupDir args)).files = w.files := by
    split
    · rfl
    · exact files_mkdirParents w _
  set w1 := if pathExists w (outputGroupDir args) = true then w
    else mkdirParents w (outputGroupDir args) with hw1def
  have hlk : ∀ r : FsPath, lookupFile w1 r = lookupFile w r := by
    intro r
    unfold lookupFile
    rw [hfiles]
  split
  · exact hlk q
  · rw [lookupFile_writeFile_ne _ _ _ _ hq]
    exact hlk q

theorem setup_pathExists_ne_head (args : Args) (w : World) (q : FsPath)
    (hq : q.head? ≠ some args.output) :
    pathExists (setupOutput args w) q = pathExists w q := by
  have hod : q.head? ≠ (outputGroupDir args).head? := by
    unfold outputGroupDir
    simpa using hq
  have hinfo : q ≠ outputGroupDir args ++ [infoFileName] := by
    intro hc
    apply hq
    rw [hc]
    rfl
  unfold setupOutput create_station_info
  simp only []
  have hw1 : pathExists (if pathExists w (outputGroupDir args) = true then w
      else mkdirParents w (outputGroupDir args)) q = pathExists w q := by
    split
    · rfl
    · exact pathExists_mkdirParents_ne_head w _ q hod
  set w1 := if pathExists w (outputGroupDir args) = true then w
    else mkdirParents w (outputGroupDir args) with hw1def
  split
  · exact hw1
  · rw [pathExists_writeFile_ne _ _ _ _ hinfo]
    exact hw1

theorem setup_dirs_mem (args : Args) (w : World) (q : FsPath)
    (h : q ∈ (setupOutput args w).dirs) :
    q ∈ w.dirs ∨ q ∈ prefixesOf (outputGroupDir args) := by
  unfold setupOutput create_station_info at h
  simp only [] at h
  have hd : ∀ wx : World, (if fileExists wx (outputGroupDir args ++ [infoFileName]) then wx
      else writeFile wx (outputGroupDir args ++ [infoFileName]) (.ok stationGroupInfoJson)).dirs
      = wx.dirs := by
    intro wx
    split
    · rfl
    · rw [dirs_writeFile]
  rw [hd] at h
  split at h
  · exact Or.inl h
  · exact (mem_dirs_mkdirParents w _ q).mp h

theorem setup_files_mem (args : Args) (w : World) (e : FsPath × FileData)
    (h : e ∈ (setupOutput args w).files) :
    e ∈ w.files ∨ e.1 = outputGroupDir args ++ [infoFileName] := by
  unfold setupOutput create_station_info at h
  simp only [] at h
  split at h
  · split at h
    · exact Or.inl h
    · unfold writeFile at h
      simp only [List.mem_append] at h
      rcases h with h | h
      · exact Or.inl (List.mem_filter.mp h).1
      · right
        rcases List.mem_singleton.mp h with rfl
        rfl
  · split at h
    · rw [files_mkdirParents] at h
      exact Or.inl h
    · unfold writeFile at h
      simp only [List.mem_append] at h
      rcases h with h | h
      · rw [files_mkdirParents] at h
        exact Or.inl (List.mem_filter.mp h).1
      · right
        rcases List.mem_singleton.mp h with rfl
        rfl

/-! ## Claim C1: conversion selection and renaming in `process_station_folder` -/

/-- A station folder holding one file with a mixed-case container extension. -/
def C1world : World :=
  { dirs := [["IN"], ["IN", "ST"]],
    files := [(["IN", "ST", "track.Awc"], .ok "a")] }

def C1songs : FsPath := ["out", "Grand Theft Auto V", "Station", "Songs"]

def C1run : OrgResult :=
  process_station_folder (fun _ => .exit 0) C1world ["IN", "ST"]
    ["out", "Grand Theft Auto V"] "Station" 0

/-- C1, counterexample: `track.Awc` case-insensitively ends in `.awc`, so it
is converted, but neither `replace (".awc", ".wav")` nor
`replace (".AWC", ".wav")` fires on its mixed-case extension: the output is
written under the unchanged name `track.Awc`, not under `track.wav` as the
claim's extension-renaming requires. -/
theorem C1_counterexample :
    isAwc "track.Awc" = true ∧
    awcOutputName "track.Awc" = "track.Awc" ∧
    "track.Awc" ≠ "track.wav" ∧
    lookupFile (orgWorld C1run) (C1songs ++ ["track.wav"]) = none ∧
    lookupFile (orgWorld C1run) (C1songs ++ ["track.Awc"]) =
      some (.ok (transcoded ["IN", "ST", "track.Awc"])) :=
  ⟨by decide, by decide, by decide, by decide, by decide⟩

/-- The example station folder of the claim. -/
def C1exWorld : World :=
  { dirs := [["IN"], ["IN", "ST"]],
    files := [(["IN", "ST", "track1.AWC"], .ok "a"),
              (["IN", "ST", "track2.awc"], .ok "b"),
              (["IN", "ST", "notes.txt"], .ok "c")] }

def C1exRun : OrgResult :=
  process_station_folder (fun _ => .exit 0) C1exWorld ["IN", "ST"]
    ["out", "Grand Theft Auto V"] "Station" 0

/-- C1, amended: every file whose lowercased name ends in `.awc` is converted
into Songs under `name.replace (".awc", ".wav").replace (".AWC", ".wav")`;
when the name is `stem + ".awc"` or `stem + ".AWC"` and the patterns occur
nowhere else in it, this renames the extension and leaves the rest unchanged;
files with any other extension are ignored; the example folder with
`track1.AWC`, `track2.awc`, `notes.txt` yields exactly `track1.wav` and
`track2.wav`. -/
theorem C1_amended :
    (∀ stem : String,
      hasSub (stem ++ ".aw") ".awc" = false →
      hasSub (stem ++ ".wav") ".AWC" = false →
      awcOutputName (stem ++ ".awc") = stem ++ ".wav") ∧
    (∀ stem : String,
      hasSub (stem ++ ".AWC") ".awc" = false →
      hasSub (stem ++ ".AW") ".AWC" = false →
      awcOutputName (stem ++ ".AWC") = stem ++ ".wav") ∧
    (∀ (w : World) (folder songs p : FsPath),
      p ∈ walkFiles w folder → isAwc (p.getLastD "") = false →
      ∀ pr ∈ plannedConversions w folder songs, pr.1 ≠ p) ∧
    (∀ (w : World) (folder songs p : FsPath),
      p ∈ walkFiles w folder → isAwc (p.getLastD "") = true →
      (p, songs ++ [awcOutputName (p.getLastD "")]) ∈ plannedConversions w folder songs) ∧
    (walkFiles (orgWorld C1exRun) C1songs =
      [C1songs ++ ["track1.wav"], C1songs ++ ["track2.wav"]] ∧
     lookupFile (orgWorld C1exRun) (C1songs ++ ["track1.wav"]) =
       some (.ok (transcoded ["IN", "ST", "track1.AWC"])) ∧
     lookupFile (orgWorld C1exRun) (C1songs ++ ["track2.wav"]) =
       some (.ok (transcoded ["IN", "ST", "track2.awc"]))) := by
  refine ⟨?_, ?_, ?_, ?_, by decide, by decide, by decide⟩
  · intro stem h1 h2
    unfold awcOutputName
    have hdl : (stem.data ++ ".awc".data).dropLast = stem.data ++ ".aw".data := by
      rw [show (".awc".data : List Char) = ".aw".data ++ ['c'] from rfl, ← List.append_assoc,
        List.dropLast_concat]
    rw [pyReplace_rename stem ".awc" ".wav" (by decide) (by rw [hdl]; exact h1)]
    exact pyReplace_eq_self _ _ _ h2
  · intro stem h1 h2
    unfold awcOutputName
    have hdl : (stem.data ++ ".AWC".data).dropLast = stem.data ++ ".AW".data := by
      rw [show (".AWC".data : List Char) = ".AW".data ++ ['C'] from rfl, ← List.append_assoc,
        List.dropLast_concat]
    rw [pyReplace_eq_self _ _ _ h1]
    exact pyReplace_rename stem ".AWC" ".wav" (by decide) (by rw [hdl]; exact h2)
  · intro w folder songs p _ hnot pr hpr hc
    have h2 := (mem_plannedConversions.mp hpr).2.1
    rw [hc, hnot] at h2
    exact absurd h2 (by simp)
  · intro w folder songs p hmem hawc
    exact mem_plannedConversions.mpr ⟨hmem, hawc, rfl⟩

/-- Witness for the amended C1: its universally quantified parts applied at
concrete inputs, with every hypothesis discharged by evaluation. -/
theorem C1_amended_witness :
    awcOutputName ("track1" ++ ".awc") = "track1" ++ ".wav" ∧
    awcOutputName ("track1" ++ ".AWC") = "track1" ++ ".wav" ∧
    (∀ pr ∈ plannedConversions C1exWorld ["IN", "ST"] C1songs,
      pr.1 ≠ ["IN", "ST", "notes.txt"]) ∧
    (["IN", "ST", "track2.awc"],
      C1songs ++ [awcOutputName ((["IN", "ST", "track2.awc"] : FsPath).getLastD "")]) ∈
      plannedConversions C1exWorld ["IN", "ST"] C1songs :=
  ⟨C1_amended.1 "track1" (by decide) (by decide),
   C1_amended.2.1 "track1" (by decide) (by decide),
   C1_amended.2.2.1 C1exWorld ["IN", "ST"] C1songs ["IN", "ST", "notes.txt"]
     (by decide) (by decide),
   C1_amended.2.2.2.1 C1exWorld ["IN", "ST"] C1songs ["IN", "ST", "track2.awc"]
     (by decide) (by decide)⟩

/-! ## Claim C2: failure handling of the audio-converter wrapper -/

/-- A station folder with two container files, processed with a transcoder
that fails to launch. -/
def C2world : World :=
  { dirs := [["IN"], ["IN", "RADIO_02_POP"]],
    files := [(["IN", "RADIO_02_POP", "track1.awc"], .ok "a"),
              (["IN", "RADIO_02_POP", "track2.awc"], .ok "b")] }

def C2run : OrgResult :=
  process_station_folder (fun _ => .launchFailure) C2world ["IN", "RADIO_02_POP"]
    ["out", "Grand Theft Auto V"] "Non-Stop-Pop FM" 0

def C2songs : FsPath := ["out", "Grand Theft Auto V", "Non-Stop-Pop FM", "Songs"]

/-- C2: a non-zero transcoder exit is indeed caught and reported as `False`,
but a failure to launch the transcoder is NOT caught by `convert_awc` (its
`try` handles only `CalledProcessError`, unlike `extract_rpf`, which has a
catch-all handler): the exception propagates, aborting the station loop
before any remaining file is processed. -/
theorem C2_code_divergence :
    convert_awc (.exit 1) = .ok false ∧
    convert_awc (.exit 0) = .ok true ∧
    extract_rpf .launchFailure = false ∧
    convert_awc .launchFailure = .error () ∧
    isRaised C2run = true ∧
    lookupFile (orgWorld C2run) (C2songs ++ ["track1.wav"]) = none ∧
    lookupFile (orgWorld C2run) (C2songs ++ ["track2.wav"]) = none :=
  ⟨rfl, rfl, rfl, rfl, by decide, by decide, by decide⟩

/-! ## Claim C4: `parse_library_folders` -/

/-- A Steam root whose `libraryfolders.vdf` holds the spec's example pair
(the file text contains doubled backslashes). -/
def C4world : World :=
  { dirs := [["S"]],
    files := [(["S", "steamapps", "libraryfolders.vdf"],
               .ok "\"path\"\t\t\"C:\\\\Games\\\\SteamLib\"")] }

/-- C4: with the manifest absent the parser returns just the root; with a
readable manifest it returns a duplicate-free list whose members are exactly
the root plus one library folder per `"path"` capture, each unescaped by
`replace ("\\\\", "\\")`; on the spec's example text the parser yields
`C:\Games\SteamLib`. -/
theorem C4_parse_library_folders :
    (∀ (w : World) (sp : FsPath),
      lookupFile w (sp ++ ["steamapps", "libraryfolders.vdf"]) = none →
      parse_library_folders w sp = [sp]) ∧
    (∀ (w : World) (sp : FsPath) (content : String),
      lookupFile w (sp ++ ["steamapps", "libraryfolders.vdf"]) = some (.ok content) →
      (parse_library_folders w sp).Nodup ∧
      ∀ p : FsPath, p ∈ parse_library_folders w sp ↔
        (p = sp ∨ ∃ m ∈ kvFindAll "path" content.data,
          p = [pyReplace m backslash2 backslash1])) ∧
    parse_library_folders C4world ["S"] = [["S"], ["C:\\Games\\SteamLib"]] := by
  refine ⟨?_, ?_, by decide⟩
  · intro w sp hc
    unfold parse_library_folders
    rw [hc]
  · intro w sp content hc
    unfold parse_library_folders
    rw [hc]
    refine ⟨List.nodup_dedup _, ?_⟩
    intro p
    simp only [List.mem_dedup, List.mem_cons, List.mem_map]
    constructor
    · rintro (rfl | ⟨m, hm, rfl⟩)
      · exact Or.inl rfl
      · exact Or.inr ⟨m, hm, rfl⟩
    · rintro (rfl | ⟨m, hm, rfl⟩)
      · exact Or.inl rfl
      · exact Or.inr ⟨m, hm, rfl⟩

/-- Witness for C4: its quantified parts applied at concrete worlds, all
hypotheses evaluated. -/
theorem C4_witness :
    parse_library_folders { dirs := [["S"]], files := [] } ["S"] = [["S"]] ∧
    ((parse_library_folders C4world ["S"]).Nodup ∧
      ∀ p : FsPath, p ∈ parse_library_folders C4world ["S"] ↔
        (p = ["S"] ∨ ∃ m ∈ kvFindAll "path"
            ("\"path\"\t\t\"C:\\\\Games\\\\SteamLib\"" : String).data,
          p = [pyReplace m backslash2 backslash1])) :=
  ⟨C4_parse_library_folders.1 { dirs := [["S"]], files := [] } ["S"] (by decide),
   C4_parse_library_folders.2.1 C4world ["S"]
     "\"path\"\t\t\"C:\\\\Games\\\\SteamLib\"" (by decide)⟩

/-! ## Claim C5: `find_gta5_install` -/

theorem installCandidate_some {w : World} {lib p : FsPath}
    (h : installCandidate w lib = some p) :
    pathExists w p = true ∧ ∃ d : String, p = lib ++ ["steamapps", "common", d] := by
  unfold installCandidate at h
  split at h
  · rename_i content heq
    split at h
    · rename_i d hd
      split at h
      · rename_i hp
        injection h with h
        subst h
        exact ⟨hp, d, rfl⟩
      · exact absurd h (by simp)
    · exact absurd h (by simp)
  · exact absurd h (by simp)

/-- C5: `find_gta5_install` returns exactly the first existing candidate in
library order (`findSome?` over the spec-side candidate description); an
unreadable manifest is skipped; if no library yields a candidate the result
is `none`; any returned path exists on disk and has the prescribed shape. -/
theorem C5_find_gta5_install :
    (∀ (w : World) (libs : List FsPath),
      find_gta5_install w libs = libs.findSome? (installCandidate w)) ∧
    (∀ (w : World) (lib : FsPath) (rest : List FsPath),
      lookupFile w (lib ++ ["steamapps", manifestName]) = some .unreadable →
      find_gta5_install w (lib :: rest) = find_gta5_install w rest) ∧
    (∀ (w : World) (libs : List FsPath),
      (∀ lib ∈ libs, installCandidate w lib = none) → find_gta5_install w libs = none) ∧
    (∀ (w : World) (lib : FsPath) (rest : List FsPath) (p : FsPath),
      installCandidate w lib = some p → find_gta5_install w (lib :: rest) = some p) ∧
    (∀ (w : World) (libs : List FsPath) (p : FsPath),
      find_gta5_install w libs = some p →
      pathExists w p = true ∧ ∃ lib ∈ libs, installCandidate w lib = some p ∧
        ∃ d : String, p = lib ++ ["steamapps", "common", d]) := by
  have h1 : ∀ (w : World) (libs : List FsPath),
      find_gta5_install w libs = libs.findSome? (installCandidate w) := by
    intro w libs
    induction libs with
    | nil => rfl
    | cons lib rest ih =>
      rw [List.findSome?_cons]
      unfold find_gta5_install installCandidate
      by_cases hf : fileExists w (lib ++ ["steamapps", manifestName]) = true
      · rw [if_pos hf]
        cases hl : lookupFile w (lib ++ ["steamapps", manifestName]) with
        | none =>
          unfold fileExists at hf
          rw [hl] at hf
          simp at hf
        | some d =>
          cases d with
          | unreadable => exact ih
          | ok content =>
            simp only []
            cases hh : (kvFindAll "installdir" content.data).head? with
            | none => exact ih
            | some dd =>
              simp only []
              by_cases hp : pathExists w (lib ++ ["steamapps", "common", dd]) = true
              · rw [if_pos hp, if_pos hp]
              · rw [if_neg hp, if_neg hp]; exact ih
      · rw [if_neg hf]
        have hl : lookupFile w (lib ++ ["steamapps", manifestName]) = none := by
          unfold fileExists at hf
          cases hl : lookupFile w (lib ++ ["steamapps", manifestName]) with
          | none => rfl
          | some d => rw [hl] at hf; simp at hf
        rw [hl]
        exact ih
  refine ⟨h1, ?_, ?_, ?_, ?_⟩
  · intro w lib rest hl
    rw [h1 w (lib :: rest), h1 w rest, List.findSome?_cons]
    have hcand : installCandidate w lib = none := by
      unfold installCandidate
      rw [hl]
    rw [hcand]
  · intro w libs h
    rw [h1 w libs]
    exact List.findSome?_eq_none_iff.mpr h
  · intro w lib rest p hc
    rw [h1 w (lib :: rest), List.findSome?_cons, hc]
  · intro w libs p h
    rw [h1 w libs] at h
    rcases List.exists_of_findSome?_eq_some h with ⟨lib, hmem, hc⟩
    rcases installCandidate_some hc with ⟨hex, d, rfl⟩
    exact ⟨hex, lib, hmem, hc, d, rfl⟩

/-- A world with two Steam libraries: the first has an unreadable app
manifest, the second locates the game. -/
def C5world : World :=
  { dirs := [["L2", "steamapps", "common", "GTAV"]],
    files := [(["L1", "steamapps", "appmanifest_271590.acf"], .unreadable),
              (["L2", "steamapps", "appmanifest_271590.acf"],
               .ok "\t\"installdir\"\t\t\"GTAV\"\n")] }

/-- Witness for C5: its quantified parts applied at a concrete world, all
hypotheses evaluated. -/
theorem C5_witness :
    find_gta5_install C5world [["L1"], ["L2"]] =
      [["L1"], ["L2"]].findSome? (installCandidate C5world) ∧
    find_gta5_install C5world [["L1"], ["L2"]] = find_gta5_install C5world [["L2"]] ∧
    find_gta5_install C5world [["X"]] = none ∧
    find_gta5_install C5world [["L2"], ["L1"]] = some ["L2", "steamapps", "common", "GTAV"] ∧
    (pathExists C5world ["L2", "steamapps", "common", "GTAV"] = true ∧
      ∃ lib ∈ [["L1"], ["L2"]], installCandidate C5world lib =
          some ["L2", "steamapps", "common", "GTAV"] ∧
        ∃ d : String, ["L2", "steamapps", "common", "GTAV"] =
          lib ++ ["steamapps", "common", d]) :=
  ⟨C5_find_gta5_install.1 C5world [["L1"], ["L2"]],
   C5_find_gta5_install.2.1 C5world ["L1"] [["L2"]] (by decide),
   C5_find_gta5_install.2.2.1 C5world [["X"]] (by decide),
   C5_find_gta5_install.2.2.2.1 C5world ["L2"] [["L1"]]
     ["L2", "steamapps", "common", "GTAV"] (by decide),
   C5_find_gta5_install.2.2.2.2 C5world [["L1"], ["L2"]]
     ["L2", "steamapps", "common", "GTAV"] (by decide)⟩

/-! ## Claim C6: station-folder matching in the organize loop -/

/-- An input whose iteration order lists the `.rpf`-suffixed directory before
the plain-named one. -/
def C6world : World :=
  { dirs := [["IN"], ["IN", "RADIO_02_POP.rpf"], ["IN", "radio_02_pop"]],
    files := [] }

/-- C6: the organize loop selects a station folder by case-insensitive
equality with the identifier, and only if no directory matches that, by
case-insensitive equality with the identifier plus `.rpf`, in that order;
with no match the station is skipped with the world unchanged.  On `C6world`
the plain-named directory wins even though the suffixed one iterates
first. -/
theorem C6_station_folder_selection :
    (∀ (w : World) (inp : FsPath) (r n : String),
      selectStationChild w inp r = some n →
      n ∈ childDirNames w inp ∧
        (pyUpper n = pyUpper r ∨
          (pyUpper n = pyUpper (r ++ ".rpf") ∧
            ∀ m ∈ childDirNames w inp, pyUpper m ≠ pyUpper r))) ∧
    (∀ (w : World) (inp : FsPath) (r : String),
      (∀ m ∈ childDirNames w inp,
        pyUpper m ≠ pyUpper r ∧ pyUpper m ≠ pyUpper (r ++ ".rpf")) →
      selectStationChild w inp r = none) ∧
    (∀ (conv : Nat → SubprocessOutcome) (w : World) (inp od : FsPath)
        (r s : String) (k : Nat),
      selectStationChild w inp r = none →
      organizeAll conv [(r, s)] w inp od k = .ok w k) ∧
    selectStationChild C6world ["IN"] "RADIO_02_POP" = some "radio_02_pop" := by
  refine ⟨?_, ?_, ?_, by decide⟩
  · intro w inp r n h
    unfold selectStationChild at h
    cases hf : (childDirNames w inp).find? (fun m => pyUpper m == pyUpper r) with
    | some n0 =>
      simp only [hf] at h
      injection h with h
      subst h
      have hmem := List.mem_of_find?_eq_some hf
      have hpred := List.find?_some hf
      exact ⟨hmem, Or.inl (by simpa using hpred)⟩
    | none =>
      simp only [hf] at h
      have hmem := List.mem_of_find?_eq_some h
      have hpred := List.find?_some h
      have hnone := List.find?_eq_none.mp hf
      refine ⟨hmem, Or.inr ⟨by simpa using hpred, ?_⟩⟩
      intro m hm
      have := hnone m hm
      simpa using this
  · intro w inp r h
    unfold selectStationChild
    have hA : (childDirNames w inp).find? (fun m => pyUpper m == pyUpper r) = none := by
      rw [List.find?_eq_none]
      intro m hm
      simpa using (h m hm).1
    have hB : (childDirNames w inp).find? (fun m => pyUpper m == pyUpper (r ++ ".rpf")) = none := by
      rw [List.find?_eq_none]
      intro m hm
      simpa using (h m hm).2
    simp only [hA, hB]
  · intro conv w inp od r s k h
    simp [organizeAll, h]

/-- Witness for C6: its quantified parts applied at `C6world`, all hypotheses
evaluated. -/
theorem C6_witness :
    ("radio_02_pop" ∈ childDirNames C6world ["IN"] ∧
      (pyUpper "radio_02_pop" = pyUpper "RADIO_02_POP" ∨
        (pyUpper "radio_02_pop" = pyUpper ("RADIO_02_POP" ++ ".rpf") ∧
          ∀ m ∈ childDirNames C6world ["IN"], pyUpper m ≠ pyUpper "RADIO_02_POP"))) ∧
    selectStationChild C6world ["IN"] "RADIO_04_PUNK" = none ∧
    organizeAll (fun _ => .exit 0) [("RADIO_04_PUNK", "Channel X")] C6world ["IN"]
      ["out", "Grand Theft Auto V"] 0 = .ok C6world 0 :=
  ⟨C6_station_folder_selection.1 C6world ["IN"] "RADIO_02_POP" "radio_02_pop" (by decide),
   C6_station_folder_selection.2.1 C6world ["IN"] "RADIO_04_PUNK" (by decide),
   C6_station_folder_selection.2.2.1 (fun _ => .exit 0) C6world ["IN"]
     ["out", "Grand Theft Auto V"] "RADIO_04_PUNK" "Channel X" 0
     (C6_station_folder_selection.2.1 C6world ["IN"] "RADIO_04_PUNK" (by decide))⟩

/-! ## Claim C8: neither `--input` nor `--auto-detect` -/

/-- C8: with no usable input flag and auto-detection off, `main` returns
right after the setup step: the final world is exactly the setup world, whose
only additions are prefixes of the group directory and the group-metadata
file. -/
theorem C8_no_input_aborts (args : Args) (steamReg : Option String)
    (conv eo : Nat → SubprocessOutcome) (ef : Nat → List (FsPath × FileData))
    (w : World) (hinput : optTruthy args.input = false) (hauto : args.auto_detect = false) :
    main args steamReg conv eo ef w = .completed (setupOutput args w) ∧
    (∀ p ∈ (setupOutput args w).dirs, p ∈ w.dirs ∨ p <+: outputGroupDir args) ∧
    (∀ e ∈ (setupOutput args w).files,
      e ∈ w.files ∨ e.1 = outputGroupDir args ++ [infoFileName]) := by
  refine ⟨?_, ?_, fun e he => setup_files_mem args w e he⟩
  · have hres : resolveAndExtract args steamReg eo ef (setupOutput args w) =
        .aborted (setupOutput args w) := by
      unfold resolveAndExtract
      rw [hinput, hauto]
      simp
    unfold main
    simp only []
    rw [hres]
  · intro p hp
    rcases setup_dirs_mem args w p hp with h | h
    · exact Or.inl h
    · exact Or.inr (mem_prefixesOf h).2.2

/-- Arguments with neither input flag usable. -/
def C8args : Args :=
  { input := none, output := "out", vgmstream := "v", rpf_cli := none, auto_detect := false }

def C8w : World := { dirs := [], files := [] }

/-- Witness for C8 at a concrete argument set and world. -/
theorem C8_witness :
    main C8args none (fun _ => .exit 0) (fun _ => .exit 0) (fun _ => []) C8w =
      .completed (setupOutput C8args C8w) :=
  (C8_no_input_aborts C8args none (fun _ => .exit 0) (fun _ => .exit 0) (fun _ => [])
    C8w (by decide) (by decide)).1

/-! ## Claim C10: flattening of the station tree into Songs -/

/-- A station folder with two same-named container files in different
subdirectories. -/
def C10world : World :=
  { dirs := [["IN"], ["IN", "ST"], ["IN", "ST", "a"], ["IN", "ST", "b"]],
    files := [(["IN", "ST", "a", "song.awc"], .ok "a"),
              (["IN", "ST", "b", "song.awc"], .ok "b")] }

def C10songs : FsPath := ["out", "Grand Theft Auto V", "Station", "Songs"]

def C10run : OrgResult :=
  process_station_folder (fun _ => .exit 0) C10world ["IN", "ST"]
    ["out", "Grand Theft Auto V"] "Station" 0

/-- C10: the output path of a conversion depends only on the bare filename,
so any two walked container files with the same filename target the same
Songs path, and after processing `C10world` the shared output holds the
transcode of the later walked source, not the earlier one. -/
theorem C10_flattening :
    (∀ (w : World) (folder songs : FsPath) (pr qr : FsPath × FsPath),
      pr ∈ plannedConversions w folder songs → qr ∈ plannedConversions w folder songs →
      pr.1.getLastD "" = qr.1.getLastD "" → pr.2 = qr.2) ∧
    plannedConversions C10world ["IN", "ST"] C10songs =
      [(["IN", "ST", "a", "song.awc"], C10songs ++ ["song.wav"]),
       (["IN", "ST", "b", "song.awc"], C10songs ++ ["song.wav"])] ∧
    lookupFile (orgWorld C10run) (C10songs ++ ["song.wav"]) =
      some (.ok (transcoded ["IN", "ST", "b", "song.awc"])) ∧
    transcoded ["IN", "ST", "b", "song.awc"] ≠ transcoded ["IN", "ST", "a", "song.awc"] := by
  refine ⟨?_, by decide, by decide, by decide⟩
  intro w folder songs pr qr hpr hqr hname
  have h1 := (mem_plannedConversions.mp hpr).2.2
  have h2 := (mem_plannedConversions.mp hqr).2.2
  rw [h1, h2, hname]

/-- Witness for C10: the same-output-path fact applied at the two concrete
files of `C10world`. -/
theorem C10_witness :
    ((["IN", "ST", "a", "song.awc"] : FsPath), C10songs ++ ["song.wav"]).2 =
      ((["IN", "ST", "b", "song.awc"] : FsPath), C10songs ++ ["song.wav"]).2 :=
  C10_flattening.1 C10world ["IN", "ST"] C10songs
    (["IN", "ST", "a", "song.awc"], C10songs ++ ["song.wav"])
    (["IN", "ST", "b", "song.awc"], C10songs ++ ["song.wav"])
    (by decide) (by decide) (by decide)

/-! ## Claim C9: the DLC scan extracts each identifier at most once -/

/-- Spec-side description of the DLC scan ("first found wins, guarded by
directory-already-exists"): walk the entries in order, keeping a file exactly
when its name yields a known identifier that is neither already present
(`already`) nor kept earlier in the scan. -/
def firstFoundWins (already : String → Bool) : List FsPath → List (FsPath × String)
  | [] => []
  | p :: rest =>
    match dlcCandidate (p.getLastD "") with
    | some sid =>
      if already sid then firstFoundWins already rest
      else (p, sid) :: firstFoundWins (fun x => x == sid || already x) rest
    | none => firstFoundWins already rest

theorem pathExists_extractInto_child (w : World) (temp : FsPath) (sid x : String)
    (rel : List (FsPath × FileData)) :
    pathExists (extractInto w (temp ++ [sid]) rel) (temp ++ [x]) =
      ((x == sid) || pathExists w (temp ++ [x])) := by
  by_cases hx : x = sid
  · subst hx
    have hmem : temp ++ [x] ∈ (extractInto w (temp ++ [x]) rel).dirs := by
      unfold extractInto
      simp only
      exact (mem_dirs_addDir _ _ _).mpr (Or.inr rfl)
    have : pathExists (extractInto w (temp ++ [x]) rel) (temp ++ [x]) = true := by
      unfold pathExists dirExists
      rw [contains_eq_decide_mem]
      simp [hmem]
    rw [this]
    simp
  · have hne : (temp ++ [x] : FsPath) ≠ temp ++ [sid] := by
      intro hc
      exact hx (by simpa using List.append_cancel_left hc)
    have h1 : dirExists (extractInto w (temp ++ [sid]) rel) (temp ++ [x]) =
        dirExists w (temp ++ [x]) := by
      unfold extractInto dirExists
      simp only
      rw [contains_eq_decide_mem, contains_eq_decide_mem]
      simp [mem_dirs_addDir, hne]
    have h2 : fileExists (extractInto w (temp ++ [sid]) rel) (temp ++ [x]) =
        fileExists w (temp ++ [x]) := by
      unfold fileExists lookupFile extractInto
      simp only
      rw [files_addDir, find?_append_none_of_keys _ _ ?hkeys]
      case hkeys =>
        intro e he
        rcases List.mem_map.mp he with ⟨r, hr, rfl⟩
        have hrne := (List.mem_filter.mp hr).2
        intro hc
        have hlen := congrArg List.length hc
        simp only [List.length_append, List.length_singleton] at hlen
        have : r.1 = [] := List.length_eq_zero.mp (by omega)
        simp [this] at hrne
    unfold pathExists
    rw [h1, h2, show (x == sid) = false by simp [hx]]
    simp

/-- An identifier whose directory already exists when the scan starts (or
that the guard function flags) is never extracted by the spec-side scan. -/
theorem firstFoundWins_not_already (already : String → Bool) :
    ∀ (entries : List FsPath) (sid : String), already sid = true →
      ∀ pr ∈ firstFoundWins already entries, pr.2 ≠ sid := by
  intro entries
  induction entries generalizing already with
  | nil => intro sid _ pr hpr; simp [firstFoundWins] at hpr
  | cons p rest ih =>
    intro sid hsid pr hpr
    unfold firstFoundWins at hpr
    cases hc : dlcCandidate (p.getLastD "") with
    | none =>
      rw [hc] at hpr
      exact ih already sid hsid pr hpr
    | some sid2 =>
      rw [hc] at hpr
      simp only [] at hpr
      by_cases h2 : already sid2 = true
      · rw [if_pos h2] at hpr
        exact ih already sid hsid pr hpr
      · rw [if_neg h2] at hpr
        rcases List.mem_cons.mp hpr with rfl | hpr
        · intro hc2
          simp only at hc2
          rw [hc2] at h2
          exact h2 hsid
        · refine ih (fun x => x == sid2 || already x) sid ?_ pr hpr
          simp only []
          rw [hsid]
          simp

/-- The identifiers the spec-side scan keeps are pairwise distinct. -/
theorem firstFoundWins_nodup (already : String → Bool) :
    ∀ entries : List FsPath,
      ((firstFoundWins already entries).map (fun pr => pr.2)).Nodup := by
  intro entries
  induction entries generalizing already with
  | nil => simp [firstFoundWins]
  | cons p rest ih =>
    unfold firstFoundWins
    cases hc : dlcCandidate (p.getLastD "") with
    | none => exact ih already
    | some sid =>
      simp only []
      by_cases h2 : already sid = true
      · rw [if_pos h2]
        exact ih already
      · rw [if_neg h2]
        simp only [List.map_cons, List.nodup_cons]
        refine ⟨?_, ih (fun x => x == sid || already x)⟩
        intro hmem
        rcases List.mem_map.mp hmem with ⟨pr, hpr, hpr2⟩
        exact firstFoundWins_not_already (fun x => x == sid || already x) rest sid
          (by simp) pr hpr hpr2

/-- With a succeeding extractor, the calls the DLC loop performs are exactly
the spec-side first-found-wins scan seeded with the directories existing when
the loop starts. -/
theorem dlcLoop_calls_spec (eo : Nat → SubprocessOutcome)
    (ef : Nat → List (FsPath × FileData)) (temp : FsPath)
    (hsucc : ∀ n, eo n = .exit 0) :
    ∀ (entries : List FsPath) (st : ExtState) (already : String → Bool),
      (∀ x, pathExists st.w (temp ++ [x]) = already x) →
      (dlcLoop eo ef temp entries st).calls =
        st.calls ++ (firstFoundWins already entries).map
          (fun pr => (pr.1, temp ++ [pr.2])) := by
  intro entries
  induction entries with
  | nil => intro st already _; simp [dlcLoop, firstFoundWins]
  | cons p rest ih =>
    intro st already hinv
    simp only [dlcLoop]
    unfold firstFoundWins
    cases hc : dlcCandidate (p.getLastD "") with
    | none => exact ih st already hinv
    | some sid =>
      simp only []
      rw [hinv sid]
      by_cases h2 : already sid = true
      · rw [if_pos h2, if_pos h2]
        exact ih st already hinv
      · rw [if_neg h2, if_neg h2]
        have hstep : extractStep eo ef st p (temp ++ [sid]) =
            { w := extractInto st.w (temp ++ [sid]) (ef st.e), e := st.e + 1,
              calls := st.calls ++ [(p, temp ++ [sid])] } := by
          unfold extractStep
          rw [hsucc st.e]
          rfl
        rw [hstep, ih _ (fun x => x == sid || already x) ?hinv2]
        · simp
        case hinv2 =>
          intro x
          simp only
          rw [pathExists_extractInto_child st.w temp sid x (ef st.e), hinv x]

/-- C9: each DLC-scan extraction is guarded by the current existence of the
identifier's temporary directory; with a succeeding extractor the performed
calls are exactly the first matching file per identifier not already present,
hence pairwise-distinct identifiers, and an identifier whose directory
pre-exists is never extracted. -/
theorem C9_dlc_first_found_wins :
    (∀ (eo : Nat → SubprocessOutcome) (ef : Nat → List (FsPath × FileData))
        (temp : FsPath) (entries : List FsPath) (st : ExtState),
      (∀ n, eo n = .exit 0) →
      (dlcLoop eo ef temp entries st).calls =
        st.calls ++ (firstFoundWins (fun sid => pathExists st.w (temp ++ [sid])) entries).map
          (fun pr => (pr.1, temp ++ [pr.2]))) ∧
    (∀ (already : String → Bool) (entries : List FsPath),
      ((firstFoundWins already entries).map (fun pr => pr.2)).Nodup) ∧
    (∀ (already : String → Bool) (entries : List FsPath) (sid : String),
      already sid = true → ∀ pr ∈ firstFoundWins already entries, pr.2 ≠ sid) :=
  ⟨fun eo ef temp entries st hsucc =>
      dlcLoop_calls_spec eo ef temp hsucc entries st
        (fun sid => pathExists st.w (temp ++ [sid])) (fun _ => rfl),
   fun already entries => firstFoundWins_nodup already entries,
   fun already entries sid h pr hpr => firstFoundWins_not_already already entries sid h pr hpr⟩

/-- A temporary state whose world already holds `RADIO_20_THELAB`, scanned
over two DLC packs both holding `radio_21_dlc_xm17.rpf` plus one archive for
the already-present identifier. -/
def C9state : ExtState :=
  { w := { dirs := [["temp_gta5_extraction"], ["temp_gta5_extraction", "RADIO_20_THELAB"]],
           files := [] },
    e := 0, calls := [] }

def C9entries : List FsPath :=
  [["dlc", "p1", "radio_21_dlc_xm17.rpf"],
   ["dlc", "p2", "RADIO_21_DLC_XM17.rpf"],
   ["dlc", "p2", "radio_20_thelab.rpf"],
   ["dlc", "p2", "notes.txt"]]

/-- Witness for C9: on `C9state`/`C9entries` with a succeeding extractor, the
loop extracts `RADIO_21_DLC_XM17` once (from the first pack only), never
re-extracts the pre-existing `RADIO_20_THELAB`, and ignores the non-matching
file — computed both by the loop and by the spec-side scan. -/
theorem C9_witness :
    (dlcLoop (fun _ => .exit 0) (fun _ => []) ["temp_gta5_extraction"] C9entries C9state).calls
      = C9state.calls ++
        (firstFoundWins
          (fun sid => pathExists C9state.w (["temp_gta5_extraction"] ++ [sid])) C9entries).map
          (fun pr => (pr.1, ["temp_gta5_extraction"] ++ [pr.2])) ∧
    (dlcLoop (fun _ => .exit 0) (fun _ => []) ["temp_gta5_extraction"] C9entries C9state).calls
      = [(["dlc", "p1", "radio_21_dlc_xm17.rpf"],
          ["temp_gta5_extraction", "RADIO_21_DLC_XM17"])] :=
  ⟨C9_dlc_first_found_wins.1 (fun _ => .exit 0) (fun _ => []) ["temp_gta5_extraction"]
      C9entries C9state (fun _ => rfl),
   by decide⟩

/-! ## Claims C7 and C3: group-metadata file and temporary-directory cleanup -/

theorem tempDir_not_pfx {q : FsPath} (h : q.head? ≠ some tempDirName) :
    tempDir.isPrefixOf q = false := by
  cases q with
  | nil => rfl
  | cons a t =>
    have ha : tempDirName ≠ a := fun hc => h (by subst hc; rfl)
    show List.isPrefixOf [tempDirName] (a :: t) = false
    simp [List.isPrefixOf, ha]

theorem resolve_aborted_eq (args : Args) (steamReg : Option String)
    (eo : Nat → SubprocessOutcome) (ef : Nat → List (FsPath × FileData))
    (w w2 : World) (h : resolveAndExtract args steamReg eo ef w = .aborted w2) :
    w2 = w := by
  unfold resolveAndExtract at h
  split at h
  · exact absurd h (by simp)
  · split at h
    · split at h
      · injection h with hw
        exact hw.symm
      · split at h
        · injection h with hw
          exact hw.symm
        · split at h
          · exact absurd h (by simp)
          · injection h with hw
            exact hw.symm
    · injection h with hw
      exact hw.symm

/-- C7: the group-metadata file exists already at the end of the setup step
(before any extraction or organization), and for every run — aborted,
completed or crashed, against any starting filesystem — its bytes in the
final filesystem are the initial bytes when the file pre-existed, and the
fixed JSON text when it did not.  Re-running therefore never alters it. -/
theorem C7_station_info_created_once (args : Args) (steamReg : Option String)
    (conv eo : Nat → SubprocessOutcome) (ef : Nat → List (FsPath × FileData))
    (w : World) (hout : args.output ≠ tempDirName) :
    fileExists (setupOutput args w) (outputGroupDir args ++ [infoFileName]) = true ∧
    lookupFile (finalWorld (main args steamReg conv eo ef w))
        (outputGroupDir args ++ [infoFileName]) =
      some ((lookupFile w (outputGroupDir args ++ [infoFileName])).getD
        (.ok stationGroupInfoJson)) := by
  have hsetup := setup_lookup_info args w
  have hiphead : (outputGroupDir args ++ [infoFileName]).head? = some args.output := rfl
  have htp : tempDir.isPrefixOf (outputGroupDir args ++ [infoFileName]) = false := by
    refine tempDir_not_pfx ?_
    rw [hiphead]
    intro hc
    injection hc with hc
    exact hout hc
  have hlen : ∀ s x : String, (outputGroupDir args ++ [infoFileName]) ≠
      (outputGroupDir args ++ [s, "Songs"]) ++ [x] := by
    intro s x hc
    have := congrArg List.length hc
    simp [outputGroupDir] at this
  refine ⟨?_, ?_⟩
  · unfold fileExists
    rw [hsetup]
    rfl
  · unfold main
    simp only []
    split
    · rename_i w2 heq
      have hres := resolve_lookup_not_pfx args steamReg eo ef (setupOutput args w)
        (outputGroupDir args ++ [infoFileName]) htp
      rw [heq] at hres
      simp only [resolveWorld] at hres
      simp only [finalWorld]
      rw [hres, hsetup]
    · rename_i w2 inp tc heq
      have hres := resolve_lookup_not_pfx args steamReg eo ef (setupOutput args w)
        (outputGroupDir args ++ [infoFileName]) htp
      rw [heq] at hres
      simp only [resolveWorld] at hres
      split
      · split
        · rename_i w3 k horg
          have horgp := organizeAll_lookup_preserve conv
            (outputGroupDir args ++ [infoFileName]) STATION_MAP w2 inp
            (outputGroupDir args) 0 hlen
          rw [horg] at horgp
          simp only [orgWorld] at horgp
          split
          · simp only [finalWorld]
            rw [lookupFile_rmtree_not_pfx w3 tempDir _ htp, horgp, hres, hsetup]
          · simp only [finalWorld]
            rw [horgp, hres, hsetup]
        · rename_i w3 horg
          have horgp := organizeAll_lookup_preserve conv
            (outputGroupDir args ++ [infoFileName]) STATION_MAP w2 inp
            (outputGroupDir args) 0 hlen
          rw [horg] at horgp
          simp only [orgWorld] at horgp
          simp only [finalWorld]
          rw [horgp, hres, hsetup]
      · simp only [finalWorld]
        rw [hres, hsetup]

/-- A pre-populated output tree for the C7 witness: the group-metadata file
already exists with marker bytes. -/
def C7world : World :=
  { dirs := [["out"], ["out", "Grand Theft Auto V"]],
    files := [(["out", "Grand Theft Auto V", "stationGroupInfoJson-marker"], .ok "x"),
              (["out", "Grand Theft Auto V", "stationGroupInfo.json"], .ok "ORIGINAL")] }

/-- Witness for C7: re-running against a tree already holding the file leaves
its bytes unchanged. -/
theorem C7_witness :
    fileExists (setupOutput C8args C7world)
      (outputGroupDir C8args ++ [infoFileName]) = true ∧
    lookupFile (finalWorld (main C8args none (fun _ => .exit 0) (fun _ => .exit 0)
        (fun _ => []) C7world)) (outputGroupDir C8args ++ [infoFileName]) =
      some ((lookupFile C7world (outputGroupDir C8args ++ [infoFileName])).getD
        (.ok stationGroupInfoJson)) :=
  C7_station_info_created_once C8args none (fun _ => .exit 0) (fun _ => .exit 0)
    (fun _ => []) C7world (by decide)

/-- The Steam installation used by the C3 scenario: one library, one base
radio archive, no DLC tree. -/
def C3world : World :=
  { dirs := [ ["S"], ["S", "steamapps"], ["S", "steamapps", "common"],
              ["S", "steamapps", "common", "G"],
              ["S", "steamapps", "common", "G", "x64"],
              ["S", "steamapps", "common", "G", "x64", "audio"],
              ["S", "steamapps", "common", "G", "x64", "audio", "sfx"] ],
    files := [ (["S", "steamapps", "appmanifest_271590.acf"],
                .ok "\t\"installdir\"\t\t\"G\"\n"),
               (["S", "steamapps", "common", "G", "x64", "audio", "sfx",
                 "RADIO_01_CLASS_ROCK.rpf"], .ok "rpfdata") ] }

def C3args : Args :=
  { input := none, output := "out", vgmstream := "missing.exe",
    rpf_cli := some "rpf", auto_detect := true }

def C3ef : Nat → List (FsPath × FileData) := fun _ => [(["song.awc"], .ok "awcdata")]

def C3run : MainResult :=
  main C3args (some "S") (fun _ => .launchFailure) (fun _ => .exit 0) C3ef C3world

/-- C3, counterexample: an auto-detect run that creates the temporary
directory, extracts one archive, and then hits a transcoder launch failure:
the exception escapes `main` past the cleanup, and the run ends with the
temporary extraction directory still present. -/
theorem C3_counterexample :
    pathExists C3world tempDir = false ∧
    isCrashed C3run = true ∧
    pathExists (finalWorld C3run) tempDir = true :=
  ⟨by decide, by decide, by decide⟩

/-- C3, amended: provided no conversion subprocess fails to launch (non-zero
transcoder exits are fine), the run terminates normally and ends with no
temporary extraction directory on disk — deleted when the auto-detect path
created it, never created otherwise.  (Side conditions: no stale temporary
directory predates the run and the output root is not itself named like the
temporary directory.) -/
theorem C3_amended_cleanup (args : Args) (steamReg : Option String)
    (conv eo : Nat → SubprocessOutcome) (ef : Nat → List (FsPath × FileData))
    (w : World) (hconv : ∀ n, conv n ≠ .launchFailure)
    (hstale : pathExists w tempDir = false) (hout : args.output ≠ tempDirName) :
    isCrashed (main args steamReg conv eo ef w) = false ∧
    pathExists (finalWorld (main args steamReg conv eo ef w)) tempDir = false := by
  have hhead : tempDir.head? ≠ some args.output := by
    intro hc
    injection hc with hc
    exact hout hc.symm
  have hsetup : pathExists (setupOutput args w) tempDir = false := by
    rw [setup_pathExists_ne_head args w tempDir hhead]
    exact hstale
  have hodne : outputGroupDir args ≠ [] := by simp [outputGroupDir]
  have hodhead : tempDir.head? ≠ (outputGroupDir args).head? := hhead
  unfold main
  simp only []
  split
  · rename_i w2 heq
    have hw2 := resolve_aborted_eq args steamReg eo ef (setupOutput args w) w2 heq
    subst hw2
    exact ⟨rfl, hsetup⟩
  · rename_i w2 inp tc heq
    split
    · split
      · rename_i w3 k horg
        have horgp := organizeAll_pathExists_preserve conv tempDir STATION_MAP w2 inp
          (outputGroupDir args) 0 hodne hodhead
        rw [horg] at horgp
        simp only [orgWorld] at horgp
        cases tc with
        | false =>
          have hw2 := resolve_resolved_false args steamReg eo ef (setupOutput args w)
            w2 inp heq
          subst hw2
          have hcond : (false && pathExists w3 tempDir) = false := by simp
          rw [if_neg (by rw [hcond]; simp)]
          refine ⟨rfl, ?_⟩
          simp only [finalWorld]
          rw [horgp]
          exact hsetup
        | true =>
          rcases resolve_resolved_true args steamReg eo ef (setupOutput args w)
            w2 inp heq with ⟨hinp, hmem⟩
          have hw2t : pathExists w2 tempDir = true := by
            unfold pathExists dirExists
            rw [contains_eq_decide_mem]
            simp [hmem]
          have hcond : (true && pathExists w3 tempDir) = true := by
            rw [horgp, hw2t]
            rfl
          rw [if_pos hcond]
          refine ⟨rfl, ?_⟩
          simp only [finalWorld]
          exact pathExists_rmtree_self w3 tempDir
      · rename_i w3 horg
        have := organizeAll_not_raised conv hconv STATION_MAP w2 inp (outputGroupDir args) 0
        rw [horg] at this
        exact absurd this (by simp [isRaised])
    · rename_i hex
      cases tc with
      | false =>
        have hw2 := resolve_resolved_false args steamReg eo ef (setupOutput args w)
          w2 inp heq
        subst hw2
        exact ⟨rfl, hsetup⟩
      | true =>
        rcases resolve_resolved_true args steamReg eo ef (setupOutput args w)
          w2 inp heq with ⟨hinp, hmem⟩
        refine absurd ?_ hex
        rw [hinp]
        unfold pathExists dirExists
        rw [contains_eq_decide_mem]
        simp [hmem]

/-- Witness for the amended C3: the C3 scenario re-run with a transcoder that
launches but exits non-zero on every file — organization does not fully
succeed, yet the run completes and the temporary directory is gone. -/
theorem C3_amended_witness :
    isCrashed (main C3args (some "S") (fun _ => .exit 1) (fun _ => .exit 0) C3ef C3world)
      = false ∧
    pathExists (finalWorld (main C3args (some "S") (fun _ => .exit 1) (fun _ => .exit 0)
      C3ef C3world)) tempDir = false :=
  C3_amended_cleanup C3args (some "S") (fun _ => .exit 1) (fun _ => .exit 0) C3ef C3world
    (by intro n; show SubprocessOutcome.exit 1 ≠ SubprocessOutcome.launchFailure; decide)
    (by decide) (by decide)

end GTA5
